import Mathlib

/-!
Verification development for the amplify-wallet billing backend
(Ledger & Reconciliation Engine).

Shallow embedding of:
  * the Wallet / Transaction data model
    (src/database/schema/transaction.schema.ts, wallet schema),
  * `WalletService.topUpWallet`, `WalletService.debitWalletForCampaign`,
    `WalletService.createWalletForUser` (wallet service),
  * `WebhookService.handleSuccesfullCharge`, `handleFailedCharge`,
    `handleCustomerSubscriptionUpdated`, `handleCustomerSubscriptionDeleted`
    (src/modules/webhook/webhook.service.ts).

The MongoDB collections are modelled as lists; `findOne` is `List.find?`,
`updateOne` updates the first matching document, `create` prepends and
enforces the unique sparse index on `Transaction.idempotencyKey`
(a second document with the same key is rejected with a duplicate-key
error).  A mongoose session is modelled by threading the candidate state
and returning the pre-session state on abort.
-/

namespace AmplifyWallet

/-- Transaction status enum (`TRANSACTION_STATUS`). -/
inductive TStatus where
  | PENDING
  | COMPLETED
  | FAILED
deriving DecidableEq, Repr

/-- Transaction type enum (`TRANSACTION_TYPE`). -/
inductive TType where
  | TOP_UP
  | CAMPAIGN_DEBIT
  | REFUND
deriving DecidableEq, Repr

/-- Wallet status enum (`Wallet.status`: ACTIVE | FROZEN | CLOSED). -/
inductive WStatus where
  | ACTIVE
  | FROZEN
  | CLOSED
deriving DecidableEq, Repr

/-- The metadata fields the wallet/webhook services actually read or write
(`Transaction.metadata` is a free-form object in the schema). -/
structure TxnMetadata where
  paymentIntentId : Option String := none
  campaignId : Option String := none
  originalBalance : Option Int := none
  newBalance : Option Int := none
  errorMessage : Option String := none
deriving DecidableEq, Repr

/-- A document of the `transactions` collection. -/
structure Txn where
  userId : String
  type : TType
  amount : Int
  status : TStatus
  idempotencyKey : Option String
  metadata : TxnMetadata := {}
deriving DecidableEq, Repr

/-- A document of the `wallets` collection (`userId` carries the unique
index; the `_id` used by the debit filter is identified with `userId`
through that unique index). -/
structure Wallet where
  userId : String
  balance : Int
  currency : String := "USD"
  status : WStatus
deriving DecidableEq, Repr

/-- The persistent store: the two ledger collections plus the set of
existing user ids (the `users` collection as far as the wallet service
reads it). -/
structure Store where
  txns : List Txn
  wallets : List Wallet
  users : List String
deriving DecidableEq, Repr

def Store.empty : Store := ⟨[], [], []⟩

/-! ### Store primitives (the mongoose operations the services use) -/

/-- `walletModel.findOne({ userId })`. -/
def findWallet (s : Store) (u : String) : Option Wallet :=
  s.wallets.find? (fun w => decide (w.userId = u))

/-- Effective balance of a user: the stored balance, `0` when no wallet
document exists. -/
def balanceOf (s : Store) (u : String) : Int :=
  match findWallet s u with
  | some w => w.balance
  | none => 0

/-- Does any transaction already hold this idempotency key?  This is the
unique sparse index on `Transaction.idempotencyKey`. -/
def keyTaken (txns : List Txn) (k : Option String) : Bool :=
  match k with
  | none => false
  | some key => txns.any (fun t => decide (t.idempotencyKey = some key))

/-- `transactionModel.create` under the unique sparse index: inserting a
document whose idempotency key is already present fails with a
duplicate-key error. -/
def insertTxn (s : Store) (t : Txn) : Option Store :=
  if keyTaken s.txns t.idempotencyKey then none
  else some { s with txns := t :: s.txns }

/-- `walletModel.updateOne({ userId }, { $inc: { balance: d } })`:
increment the first wallet of the user, returning the matched count. -/
def walletIncFirst : List Wallet → String → Int → Nat × List Wallet
  | [], _, _ => (0, [])
  | w :: ws, u, d =>
    if w.userId = u then (1, { w with balance := w.balance + d } :: ws)
    else
      let r := walletIncFirst ws u d
      (r.1, w :: r.2)

/-- The atomic conditional debit:
`walletModel.updateOne({ _id, balance: { $gte: amt }, status: 'ACTIVE' },
{ $inc: { balance: -amt } })`. -/
def walletCondDebit : List Wallet → String → Int → Nat × List Wallet
  | [], _, _ => (0, [])
  | w :: ws, u, amt =>
    if w.userId = u ∧ amt ≤ w.balance ∧ w.status = WStatus.ACTIVE then
      (1, { w with balance := w.balance - amt } :: ws)
    else
      let r := walletCondDebit ws u amt
      (r.1, w :: r.2)

/-! ### Subscription reconciliation (WebhookService, subscription events)

The cached billing fields on the user document that
`handleCustomerSubscriptionUpdated` / `handleCustomerSubscriptionDeleted`
read and `$set`.  `lastStripeSync` (a wall-clock timestamp) is not
modelled. -/

structure BillingProfile where
  stripeSubscriptionId : Option String := none
  subscriptionStatus : Option String := none
  activeStripePriceId : Option String := none
  currentPeriodEnd : Option Int := none
  hasActiveSubscription : Bool := false
  paymentStatus : Option String := none
deriving DecidableEq, Repr

/-- The fields of a `customer.subscription.*` event payload that the two
handlers read: `subscription.id`, `subscription.status`,
`subscription.cancel_at_period_end`, `items.data[0].price.id` and
`items.data[0].current_period_end` (seconds). -/
structure SubEvent where
  id : String
  status : String
  cancelAtPeriodEnd : Bool
  priceId : Option String
  currentPeriodEnd : Option Int
deriving DecidableEq, Repr

/-- `['active', 'trialing'].includes(subscription.status)`. -/
def hasActiveOf (st : String) : Bool :=
  st = "active" || st = "trialing"

/-- The nested ternary deriving `paymentStatus` in
`handleCustomerSubscriptionUpdated`. -/
def derivePaymentStatus (st : String) : String :=
  if st = "past_due" then "past_due"
  else if st = "unpaid" then "past_due"
  else if hasActiveOf st then "active"
  else "none"

/-- `handleCustomerSubscriptionUpdated`, applied to the user found by
`stripeCustomerId`: builds `updateData` from the event payload and
`$set`s it unconditionally (no comparison against the cached state). -/
def applySubscriptionUpdated (p : BillingProfile) (e : SubEvent) :
    BillingProfile :=
  let base : BillingProfile :=
    { p with
      stripeSubscriptionId := some e.id
      subscriptionStatus := some e.status
      activeStripePriceId := e.priceId
      currentPeriodEnd := e.currentPeriodEnd.map (· * 1000) }
  if e.status = "canceled" then
    { base with
      hasActiveSubscription := false
      paymentStatus := some "canceled"
      stripeSubscriptionId := none
      activeStripePriceId := none
      currentPeriodEnd := none }
  else if e.cancelAtPeriodEnd then
    { base with
      hasActiveSubscription := hasActiveOf e.status
      paymentStatus := some (derivePaymentStatus e.status) }
  else
    { base with
      hasActiveSubscription := hasActiveOf e.status
      paymentStatus := some (derivePaymentStatus e.status) }

/-- `handleCustomerSubscriptionDeleted`: clears the subscription
identifiers and marks everything canceled (the event payload beyond the
customer id is not consulted). -/
def applySubscriptionDeleted (p : BillingProfile) : BillingProfile :=
  { p with
    stripeSubscriptionId := none
    subscriptionStatus := some "canceled"
    activeStripePriceId := none
    currentPeriodEnd := none
    hasActiveSubscription := false
    paymentStatus := some "canceled" }

/-! ### WalletService.topUpWallet -/

/-- The outcome of `stripe.paymentIntents.create` as the service branches
on it: the handled `paymentIntent.status` values, an unhandled status
(the `if/else` chain falls through), or a thrown SDK error. -/
inductive StripeOutcome where
  | succeeded (piId : String)
  | requiresAction (piId : String) (clientSecret : Option String)
  | processing (piId : String) (clientSecret : Option String)
  | requiresPaymentMethod (errMsg : String)
  | otherStatus (st : String)
  | apiError
deriving DecidableEq, Repr

/-- The failures `topUpWallet` surfaces to its caller. -/
inductive TopUpErr where
  /-- `Error('Idempotency key is required')`, wrapped in a 500. -/
  | keyRequired
  /-- a MongoServerError (duplicate idempotency key) escaped; the
  recovery `create` of a FAILED transaction hits the same unique index,
  so the original store error is rethrown as a 500. -/
  | dbError
  /-- `InternalServerErrorException('User wallet not found or could not
  be updated.')`: the `$inc` matched no wallet, session aborted. -/
  | walletNotFound
  /-- `BadRequestException('Your card was declined...')`. -/
  | cardDeclined
  /-- `Error('Failed to top up wallet')` after a gateway error, wrapped
  in a 500. -/
  | topUpFailed
deriving DecidableEq, Repr

/-- The value `topUpWallet` resolves or rejects with. -/
inductive TopUpResult where
  /-- an already-COMPLETED transaction with this key was returned as-is. -/
  | existing (t : Txn)
  /-- the synchronous charge succeeded and was committed. -/
  | completed (t : Txn)
  /-- `{ status, paymentIntentId, clientSecret }` for an asynchronous
  charge; a PENDING transaction was recorded. -/
  | pending (status : String) (piId : String) (clientSecret : Option String)
  /-- the unhandled-status fall-through (the function returns undefined). -/
  | nothing
  | failed (e : TopUpErr)
deriving DecidableEq, Repr

/-- `WalletService.topUpWallet(user, idempotencyKey, { amount,
paymentMethodId })`.  `amount` is the DTO amount (validated integer
1..1,000,000); every stored amount and the payment-intent amount are
`amount * 100`.  Sessions: the succeeded path runs the COMPLETED insert
and the `$inc` in one transaction, aborting both on any failure; the
PENDING / FAILED creates run outside any session. -/
def topUpWallet (s : Store) (userId key : String) (amount : Int)
    (outcome : StripeOutcome) : TopUpResult × Store :=
  if key = "" then (.failed .keyRequired, s)
  else
    match s.txns.find? (fun t =>
        decide (t.idempotencyKey = some key ∧ t.status = TStatus.COMPLETED)) with
    | some t => (.existing t, s)
    | none =>
      match outcome with
      | .succeeded pi =>
        let newTxn : Txn :=
          { userId := userId, type := TType.TOP_UP, amount := amount * 100,
            status := TStatus.COMPLETED, idempotencyKey := some key,
            metadata := { paymentIntentId := some pi } }
        match insertTxn s newTxn with
        | none => (.failed .dbError, s)
        | some s1 =>
          let r := walletIncFirst s1.wallets userId (amount * 100)
          if r.1 = 0 then (.failed .walletNotFound, s)
          else (.completed newTxn, { s1 with wallets := r.2 })
      | .requiresAction pi cs =>
        let pTxn : Txn :=
          { userId := userId, type := TType.TOP_UP, amount := amount * 100,
            status := TStatus.PENDING, idempotencyKey := some key,
            metadata := { paymentIntentId := some pi } }
        match insertTxn s pTxn with
        | none => (.failed .dbError, s)
        | some s1 => (.pending "requires_action" pi cs, s1)
      | .processing pi cs =>
        let pTxn : Txn :=
          { userId := userId, type := TType.TOP_UP, amount := amount * 100,
            status := TStatus.PENDING, idempotencyKey := some key,
            metadata := { paymentIntentId := some pi } }
        match insertTxn s pTxn with
        | none => (.failed .dbError, s)
        | some s1 => (.pending "processing" pi cs, s1)
      | .requiresPaymentMethod msg =>
        let fTxn : Txn :=
          { userId := userId, type := TType.TOP_UP, amount := amount * 100,
            status := TStatus.FAILED, idempotencyKey := some key,
            metadata := { errorMessage := some msg } }
        match insertTxn s fTxn with
        | none => (.failed .dbError, s)
        | some s1 => (.failed .cardDeclined, s1)
      | .otherStatus _ => (.nothing, s)
      | .apiError =>
        let fTxn : Txn :=
          { userId := userId, type := TType.TOP_UP, amount := amount * 100,
            status := TStatus.FAILED, idempotencyKey := some key }
        match insertTxn s fTxn with
        | none => (.failed .dbError, s)
        | some s1 => (.failed .topUpFailed, s1)

/-! ### WalletService.debitWalletForCampaign -/

/-- `Types.ObjectId.isValid` on a string: 24 hexadecimal characters. -/
def isValidObjectId (id : String) : Bool :=
  decide (id.length = 24) &&
    id.toList.all (fun c =>
      c.isDigit || (decide ('a' ≤ c.toLower) && decide (c.toLower ≤ 'f')))

/-- The failures `debitWalletForCampaign` (and `createWalletForUser`)
surface, by their `code`. -/
inductive DebitErr where
  | invalidAmount
  | duplicateTransaction
  | invalidUserId
  | userNotFound
  | walletInactive
  | insufficientFunds
  /-- `InternalServerErrorException('Database operation failed')` after a
  MongoServerError (the unique-index rejection of the COMPLETED insert);
  the session is aborted, rolling the debit back. -/
  | dbFailed
deriving DecidableEq, Repr

/-- The `{ transactionId, remainingBalance }` success payload, with the
created transaction carried whole. -/
structure DebitSuccess where
  txn : Txn
  remainingBalance : Int
deriving DecidableEq, Repr

/-- The wallet document `createWalletForUser` inserts: schema defaults
balance 0 / currency USD, explicit status ACTIVE. -/
def freshWallet (userId : String) : Wallet :=
  { userId := userId, balance := 0, status := WStatus.ACTIVE }

/-- `WalletService.createWalletForUser(userId)`: requires the user to
exist, creates a wallet with default balance 0 / status ACTIVE.  (The
back-link `user.walletId` is not tracked in the model.) -/
def createWalletForUser (s : Store) (userId : String) :
    Option (Wallet × Store) :=
  if s.users.contains userId then
    some (freshWallet userId, { s with wallets := freshWallet userId :: s.wallets })
  else none

/-- `WalletService.debitWalletForCampaign({ userId, amountInCents,
idempotencyKey })`.  The duplicate check, ObjectId check and wallet
auto-provisioning run before the session; the conditional debit and the
COMPLETED insert run inside it and roll back together. -/
def debitWalletForCampaign (s : Store) (userId key : String)
    (amountInCents : Int) : Except DebitErr DebitSuccess × Store :=
  if amountInCents < 100 then (.error .invalidAmount, s)
  else if s.txns.any (fun t =>
      decide (t.userId = userId ∧ t.idempotencyKey = some key)) then
    (.error .duplicateTransaction, s)
  else if !isValidObjectId userId then (.error .invalidUserId, s)
  else
    match (match findWallet s userId with
           | some w => some (w, s)
           | none => createWalletForUser s userId) with
    | none => (.error .userNotFound, s)
    | some (w, s1) =>
      if w.status = WStatus.ACTIVE then
        let r := walletCondDebit s1.wallets userId amountInCents
        if r.1 = 0 then (.error .insufficientFunds, s1)
        else
          let newTxn : Txn :=
            { userId := userId, type := TType.CAMPAIGN_DEBIT,
              amount := amountInCents, status := TStatus.COMPLETED,
              idempotencyKey := some key,
              metadata :=
                { campaignId := some key,
                  originalBalance := some w.balance,
                  newBalance := some (w.balance - amountInCents) } }
          match insertTxn { s1 with wallets := r.2 } newTxn with
          | none => (.error .dbFailed, s1)
          | some s2 =>
            (.ok { txn := newTxn, remainingBalance := w.balance - amountInCents },
              s2)
      else (.error .walletInactive, s1)

/-! ### WebhookService charge handlers -/

/-- The fields of a `payment_intent.*` event the two charge handlers
read: `paymentIntent.id` and `paymentIntent.amount` (minor units). -/
structure PIEvent where
  piId : String
  amount : Int
deriving DecidableEq, Repr

/-- `transactionModel.findOneAndUpdate({ 'metadata.paymentIntentId': pi,
status: PENDING }, update)`: rewrite the first matching document with
`f`, returning the pre-image. -/
def updateFirstPendingPI : List Txn → String → (Txn → Txn) →
    Option Txn × List Txn
  | [], _, _ => (none, [])
  | t :: ts, pi, f =>
    if t.metadata.paymentIntentId = some pi ∧ t.status = TStatus.PENDING then
      (some t, f t :: ts)
    else
      let r := updateFirstPendingPI ts pi f
      (r.1, t :: r.2)

/-- `WebhookService.handleSuccesfullCharge`: in one session, flip the
first PENDING transaction carrying this payment intent to COMPLETED and
`$inc` the owner's wallet by `paymentIntent.amount`; abort (no state
change) when no PENDING transaction matches.  The wallet `$inc` is a
`findOneAndUpdate` without upsert or matched-count check: when the user
has no wallet document the commit still goes through with no credit. -/
def handleSuccesfullCharge (s : Store) (e : PIEvent) : Store :=
  match updateFirstPendingPI s.txns e.piId
      (fun t => { t with status := TStatus.COMPLETED }) with
  | (none, _) => s
  | (some t, txns1) =>
    let r := walletIncFirst s.wallets t.userId e.amount
    { s with txns := txns1, wallets := r.2 }

/-- The `$set` of `handleFailedCharge`: status FAILED plus the error
message attached by dot notation. -/
def failUpd (errMsg : Option String) : Txn → Txn := fun t =>
  { t with status := TStatus.FAILED
           metadata := { t.metadata with errorMessage := errMsg } }

/-- `WebhookService.handleFailedCharge`: flip the first PENDING
transaction of this payment intent to FAILED and attach the error
message; no wallet change, no-op when nothing matches. -/
def handleFailedCharge (s : Store) (e : PIEvent) (errMsg : Option String) :
    Store :=
  match updateFirstPendingPI s.txns e.piId (failUpd errMsg) with
  | (none, _) => s
  | (some _, txns1) => { s with txns := txns1 }

/-! ### Basic lemmas about the store primitives -/

/-- No wallet document matches iff the `$inc` matches nothing. -/
theorem walletIncFirst_matched_zero (ws : List Wallet) (u : String) (d : Int) :
    (walletIncFirst ws u d).1 = 0 ↔
      ws.find? (fun w => decide (w.userId = u)) = none := by
  induction ws with
  | nil => simp [walletIncFirst]
  | cons w ws ih =>
    by_cases h : w.userId = u
    · simp [walletIncFirst, h]
    · simp [walletIncFirst, h, ih]

/-- When no wallet document matches, the `$inc` leaves the collection
untouched. -/
theorem walletIncFirst_not_found (ws : List Wallet) (u : String) (d : Int)
    (h : ws.find? (fun w => decide (w.userId = u)) = none) :
    (walletIncFirst ws u d).2 = ws := by
  induction ws with
  | nil => simp [walletIncFirst]
  | cons w ws ih =>
    have hw : ¬w.userId = u := by
      have := List.find?_eq_none.mp h w (by simp)
      simpa using this
    have ht : ws.find? (fun w => decide (w.userId = u)) = none := by
      rw [List.find?_eq_none] at h ⊢
      intro x hx
      exact h x (by simp [hx])
    simp [walletIncFirst, hw, ih ht]

/-- The `$inc` updates exactly the first wallet of the user. -/
theorem walletIncFirst_find (ws : List Wallet) (u : String) (d : Int)
    (w : Wallet) (hf : ws.find? (fun w => decide (w.userId = u)) = some w) :
    (walletIncFirst ws u d).2.find? (fun w => decide (w.userId = u))
      = some { w with balance := w.balance + d } := by
  induction ws with
  | nil => simp at hf
  | cons w0 ws ih =>
    rw [List.find?_cons] at hf
    by_cases h : w0.userId = u
    · simp [h] at hf
      subst hf
      simp [walletIncFirst, h, List.find?_cons, decide_eq_true h]
    · simp [h] at hf
      simpa [walletIncFirst, h, List.find?_cons] using ih hf

/-- The conditional debit matches nothing iff no wallet satisfies the
whole filter. -/
theorem walletCondDebit_matched_zero (ws : List Wallet) (u : String)
    (amt : Int) :
    (walletCondDebit ws u amt).1 = 0 ↔
      ∀ w ∈ ws, ¬(w.userId = u ∧ amt ≤ w.balance ∧ w.status = WStatus.ACTIVE) := by
  induction ws with
  | nil => simp [walletCondDebit]
  | cons w ws ih =>
    by_cases h : w.userId = u ∧ amt ≤ w.balance ∧ w.status = WStatus.ACTIVE
    · simp [walletCondDebit, h]
    · have step : (walletCondDebit (w :: ws) u amt).1
          = (walletCondDebit ws u amt).1 := by
        simp [walletCondDebit, h]
      rw [step, ih]
      constructor
      · intro hall w' hw'
        rcases List.mem_cons.mp hw' with hx | hm
        · subst hx
          exact h
        · exact hall w' hm
      · intro hall w' hw'
        exact hall w' (List.mem_cons_of_mem _ hw')

/-- When no wallet document matches the whole filter, the conditional
debit leaves the collection untouched. -/
theorem walletCondDebit_no_match (ws : List Wallet) (u : String) (amt : Int)
    (h : ∀ w ∈ ws, ¬(w.userId = u ∧ amt ≤ w.balance ∧ w.status = WStatus.ACTIVE)) :
    (walletCondDebit ws u amt).2 = ws := by
  induction ws with
  | nil => simp [walletCondDebit]
  | cons w ws ih =>
    have hw := h w (by simp)
    simp [walletCondDebit, hw]
    exact ih (fun w' hw' => h w' (by simp [hw']))

/-- Under the unique index on `Wallet.userId`: when the user's wallet
satisfies the balance/status filter, the conditional debit decrements
exactly that wallet. -/
theorem walletCondDebit_unique_hit (ws : List Wallet) (u : String)
    (amt : Int) (w : Wallet)
    (hpw : ws.Pairwise (fun a b => a.userId ≠ b.userId))
    (hf : ws.find? (fun w => decide (w.userId = u)) = some w)
    (hg : amt ≤ w.balance ∧ w.status = WStatus.ACTIVE) :
    (walletCondDebit ws u amt).1 = 1 ∧
      (walletCondDebit ws u amt).2.find? (fun w => decide (w.userId = u))
        = some { w with balance := w.balance - amt } := by
  induction ws with
  | nil => simp at hf
  | cons w0 ws ih =>
    rw [List.find?_cons] at hf
    by_cases h : w0.userId = u
    · simp [h] at hf
      subst hf
      constructor
      · simp [walletCondDebit, h, hg.1, hg.2]
      · simp [walletCondDebit, h, hg.1, hg.2, List.find?_cons, decide_eq_true h]
    · simp [h] at hf
      have := ih (List.Pairwise.of_cons hpw) hf
      constructor
      · simpa [walletCondDebit, h] using this.1
      · simpa [walletCondDebit, h, List.find?_cons] using this.2

/-- Under the unique index on `Wallet.userId`: when the user's wallet
fails the balance/status filter, the conditional debit matches
nothing. -/
theorem walletCondDebit_unique_miss (ws : List Wallet) (u : String)
    (amt : Int) (w : Wallet)
    (hpw : ws.Pairwise (fun a b => a.userId ≠ b.userId))
    (hf : ws.find? (fun w => decide (w.userId = u)) = some w)
    (hg : ¬(amt ≤ w.balance ∧ w.status = WStatus.ACTIVE)) :
    (walletCondDebit ws u amt).1 = 0 := by
  rw [walletCondDebit_matched_zero]
  intro w' hw' hcon
  rcases hcon with ⟨hu, hrest⟩
  have hw'' : ws.find? (fun w => decide (w.userId = u)) = some w := hf
  -- the unique index: `w'` with the same userId must be `w` itself
  induction ws with
  | nil => simp at hw'
  | cons w0 ws ih =>
    rw [List.find?_cons] at hf
    rcases List.mem_cons.mp hw' with h0 | h0
    · subst h0
      rw [List.find?_cons_of_pos _ (by simpa using hu)] at hw''
      exact hg (by simpa [← Option.some_inj.mp hw''] using hrest)
    · by_cases h : w0.userId = u
      · rcases List.pairwise_cons.mp hpw with ⟨hne, _⟩
        exact (hne w' h0) (h.trans hu.symm)
      · rw [List.find?_cons_of_neg _ (by simpa using h)] at hw''
        exact ih (List.Pairwise.of_cons hpw) hw'' h0 hw''

/-- When the user's wallet fails the filter and no other wallet has the
user's id, a matching document elsewhere is impossible. -/
theorem findWallet_none_no_mem (s : Store) (u : String)
    (h : findWallet s u = none) :
    ∀ w ∈ s.wallets, w.userId ≠ u := by
  intro w hw
  have := List.find?_eq_none.mp h w hw
  simpa using this

/-! ### Claim C9: derived subscription fields -/

/-- Spec-side derivation of `paymentStatus`, following the spec's words:
`active` for {active,trialing}, `past_due` for {past_due,unpaid},
`canceled` for {canceled}, else `none`. -/
def specPaymentStatus (st : String) : String :=
  if st = "active" ∨ st = "trialing" then "active"
  else if st = "past_due" ∨ st = "unpaid" then "past_due"
  else if st = "canceled" then "canceled"
  else "none"

/-- C9: for every subscription-state event applied by the dispatcher,
`hasActiveSubscription` is true exactly when the event status is in
{active, trialing}; `paymentStatus` follows the spec's mapping (active /
past_due / canceled / none); and a scheduled cancellation
(`cancel_at_period_end` with status still active) keeps
`hasActiveSubscription = true`. -/
theorem subscription_derived_fields (p : BillingProfile) (e : SubEvent) :
    ((applySubscriptionUpdated p e).hasActiveSubscription
        = (e.status = "active" || e.status = "trialing")) ∧
    ((applySubscriptionUpdated p e).paymentStatus
        = some (specPaymentStatus e.status)) ∧
    (e.cancelAtPeriodEnd = true → e.status = "active" →
        (applySubscriptionUpdated p e).hasActiveSubscription = true) := by
  refine ⟨?_, ?_, ?_⟩
  · unfold applySubscriptionUpdated hasActiveOf
    by_cases h1 : e.status = "canceled"
    · simp [h1]
    · by_cases h2 : e.cancelAtPeriodEnd <;> simp [h1, h2]
  · unfold applySubscriptionUpdated specPaymentStatus derivePaymentStatus hasActiveOf
    by_cases h1 : e.status = "canceled"
    · simp [h1]
    · by_cases h2 : e.cancelAtPeriodEnd <;>
      by_cases h3 : e.status = "past_due" <;>
      by_cases h4 : e.status = "unpaid" <;>
      by_cases h5 : e.status = "active" <;>
      by_cases h6 : e.status = "trialing" <;>
        simp_all
  · intro hc hs
    unfold applySubscriptionUpdated hasActiveOf
    simp [hs, hc]

/-- Witness for C9 at a concrete scheduled-cancellation event. -/
theorem subscription_derived_fields_witness :
    (applySubscriptionUpdated {}
        ⟨"sub_1", "active", true, some "price_1", some 100⟩).hasActiveSubscription
      = true :=
  (subscription_derived_fields {}
      ⟨"sub_1", "active", true, some "price_1", some 100⟩).2.2 rfl rfl

/-! ### Claim C4: stale subscription.updated after subscription.deleted -/

/-- The cached profile right after `customer.subscription.deleted` was
applied. -/
def profileAfterDelete : BillingProfile := applySubscriptionDeleted {}

/-- A stale `customer.subscription.updated` payload (status still
`active`) redelivered after the deletion. -/
def staleActiveEvent : SubEvent :=
  ⟨"sub_1", "active", false, some "price_1", some 100⟩

/-- C4 counterexample: after a deletion is applied
(`hasActiveSubscription = false`, identifiers cleared), applying a stale
`active` update event resurrects the subscription: the handler performs
no staleness comparison, so `hasActiveSubscription` flips back to `true`
and the cleared identifiers are restored — the claim is false. -/
theorem stale_update_resurrects_cex :
    profileAfterDelete.hasActiveSubscription = false ∧
    profileAfterDelete.stripeSubscriptionId = none ∧
    (applySubscriptionUpdated profileAfterDelete
        staleActiveEvent).hasActiveSubscription = true ∧
    (applySubscriptionUpdated profileAfterDelete
        staleActiveEvent).stripeSubscriptionId = some "sub_1" :=
  ⟨rfl, rfl, rfl, rfl⟩

/-- C4 amended: the dispatcher applies subscription.updated events
unconditionally (last-writer-wins, no staleness check), so a stale
`active` update delivered after the deletion was applied resurrects the
subscription: `hasActiveSubscription` becomes true again and the
subscription identifiers are restored from the stale payload. -/
theorem stale_update_last_writer_wins (p : BillingProfile) (e : SubEvent)
    (h : e.status = "active") :
    ((applySubscriptionUpdated (applySubscriptionDeleted p) e).hasActiveSubscription
        = true) ∧
    ((applySubscriptionUpdated (applySubscriptionDeleted p) e).stripeSubscriptionId
        = some e.id) ∧
    ((applySubscriptionUpdated (applySubscriptionDeleted p) e).subscriptionStatus
        = some "active") := by
  unfold applySubscriptionUpdated applySubscriptionDeleted hasActiveOf
  by_cases h2 : e.cancelAtPeriodEnd <;> simp [h, h2]

/-- Witness for the amended C4. -/
theorem stale_update_last_writer_wins_witness :
    (applySubscriptionUpdated (applySubscriptionDeleted {})
        staleActiveEvent).hasActiveSubscription = true :=
  (stale_update_last_writer_wins {} staleActiveEvent rfl).1

/-! ### Helper lemmas about topUpWallet -/

/-- When no transaction holds the key, the initial COMPLETED-replay
lookup misses. -/
theorem find_completed_none (txns : List Txn) (key : String)
    (hfree : ∀ t ∈ txns, t.idempotencyKey ≠ some key) :
    txns.find? (fun t =>
      decide (t.idempotencyKey = some key ∧ t.status = TStatus.COMPLETED)) = none := by
  rw [List.find?_eq_none]
  intro t ht
  simp [hfree t ht]

/-- When no transaction holds the key, the unique index accepts an
insert. -/
theorem keyTaken_false (txns : List Txn) (key : String)
    (hfree : ∀ t ∈ txns, t.idempotencyKey ≠ some key) :
    keyTaken txns (some key) = false := by
  simp only [keyTaken, List.any_eq_false, decide_eq_true_eq]
  exact hfree

/-- The synchronous-success branch of `topUpWallet`, spelled out, when
the key is fresh. -/
theorem topUp_succeeded_eq (s : Store) (userId key pi : String) (amt : Int)
    (hk : ¬key = "") (hfree : ∀ t ∈ s.txns, t.idempotencyKey ≠ some key) :
    topUpWallet s userId key amt (.succeeded pi) =
      (let newTxn : Txn :=
        { userId := userId, type := TType.TOP_UP, amount := amt * 100,
          status := TStatus.COMPLETED, idempotencyKey := some key,
          metadata := { paymentIntentId := some pi } }
       let r := walletIncFirst s.wallets userId (amt * 100)
       if r.1 = 0 then (.failed .walletNotFound, s)
       else (.completed newTxn,
         { txns := newTxn :: s.txns, wallets := r.2, users := s.users })) := by
  simp only [topUpWallet, if_neg hk, find_completed_none s.txns key hfree,
    insertTxn, keyTaken_false s.txns key hfree, Bool.false_eq_true, if_false]

/-- The COMPLETED transaction document the succeeded branch creates (the
object literal passed to `transactionModel.create`). -/
def topUpCompletedTxn (userId key pi : String) (amt : Int) : Txn :=
  { userId := userId, type := TType.TOP_UP, amount := amt * 100,
    status := TStatus.COMPLETED, idempotencyKey := some key,
    metadata := { paymentIntentId := some pi } }

/-- Succeeded branch, fresh key, wallet matched: commit. -/
theorem topUp_succeeded_hit (s : Store) (userId key pi : String) (amt : Int)
    (hk : ¬key = "") (hfree : ∀ t ∈ s.txns, t.idempotencyKey ≠ some key)
    (hmz : ¬(walletIncFirst s.wallets userId (amt * 100)).1 = 0) :
    topUpWallet s userId key amt (.succeeded pi) =
      (.completed (topUpCompletedTxn userId key pi amt),
        { txns := topUpCompletedTxn userId key pi amt :: s.txns,
          wallets := (walletIncFirst s.wallets userId (amt * 100)).2,
          users := s.users }) := by
  rw [topUp_succeeded_eq s userId key pi amt hk hfree]
  simp [hmz, topUpCompletedTxn]

/-- Succeeded branch, fresh key, no wallet document: abort. -/
theorem topUp_succeeded_miss (s : Store) (userId key pi : String) (amt : Int)
    (hk : ¬key = "") (hfree : ∀ t ∈ s.txns, t.idempotencyKey ≠ some key)
    (hmz : (walletIncFirst s.wallets userId (amt * 100)).1 = 0) :
    topUpWallet s userId key amt (.succeeded pi)
      = (.failed .walletNotFound, s) := by
  rw [topUp_succeeded_eq s userId key pi amt hk hfree]
  simp [hmz]

/-! ### Claim C5: the credit path ignores wallet status -/

/-- A 24-hex-character user id used by the concrete counterexamples. -/
def uidA : String := "aaaaaaaaaaaaaaaaaaaaaaaa"

/-- A store whose only wallet is CLOSED. -/
def closedWalletStore : Store :=
  ⟨[], [⟨uidA, 50, "USD", WStatus.CLOSED⟩], [uidA]⟩

/-- C5 counterexample: a successful-payment top-up against a CLOSED
wallet does not fail with any WalletClosed condition — it commits a
COMPLETED transaction and increments the CLOSED wallet's balance (the
`$inc` filter carries no status predicate, and no WalletClosed error
exists in the service), refuting the claim. -/
theorem credit_closed_wallet_cex :
    (findWallet closedWalletStore uidA).map Wallet.status
        = some WStatus.CLOSED ∧
    (topUpWallet closedWalletStore uidA "k5" 7 (.succeeded "pi_5")).1
        = .completed (topUpCompletedTxn uidA "k5" "pi_5" 7) ∧
    balanceOf (topUpWallet closedWalletStore uidA "k5" 7
        (.succeeded "pi_5")).2 uidA = 750 :=
  ⟨rfl, rfl, rfl⟩

/-- C5 amended: the successful-payment top-up path increments the
balance of whatever wallet document exists, regardless of its status
(ACTIVE, FROZEN or CLOSED) — no WalletClosed failure exists; when the
user has no wallet document at all, the commit is aborted and the call
fails with the wallet-not-found internal error, leaving the store
unchanged. -/
theorem credit_ignores_wallet_status (s : Store) (userId key pi : String)
    (amt : Int) (hk : ¬key = "")
    (hfree : ∀ t ∈ s.txns, t.idempotencyKey ≠ some key) :
    (∀ w, findWallet s userId = some w →
      ∃ t s', topUpWallet s userId key amt (.succeeded pi)
          = (.completed t, s') ∧
        t.status = TStatus.COMPLETED ∧
        balanceOf s' userId = w.balance + amt * 100) ∧
    (findWallet s userId = none →
      topUpWallet s userId key amt (.succeeded pi)
        = (.failed .walletNotFound, s)) := by
  constructor
  · intro w hw
    have hmz : ¬(walletIncFirst s.wallets userId (amt * 100)).1 = 0 := by
      rw [walletIncFirst_matched_zero]
      unfold findWallet at hw
      simp [hw]
    refine ⟨topUpCompletedTxn userId key pi amt, _,
      topUp_succeeded_hit s userId key pi amt hk hfree hmz, rfl, ?_⟩
    simp only [balanceOf, findWallet]
    rw [walletIncFirst_find s.wallets userId (amt * 100) w hw]
  · intro hnone
    have hmz : (walletIncFirst s.wallets userId (amt * 100)).1 = 0 := by
      rw [walletIncFirst_matched_zero]
      exact hnone
    exact topUp_succeeded_miss s userId key pi amt hk hfree hmz

/-- Witness for the amended C5: a FROZEN wallet is credited. -/
theorem credit_ignores_wallet_status_witness :
    ∃ t s', topUpWallet ⟨[], [⟨uidA, 10, "USD", WStatus.FROZEN⟩], [uidA]⟩
        uidA "kw5" 3 (.succeeded "pi_w5") = (.completed t, s') ∧
      t.status = TStatus.COMPLETED ∧
      balanceOf s' uidA = 10 + 3 * 100 :=
  (credit_ignores_wallet_status ⟨[], [⟨uidA, 10, "USD", WStatus.FROZEN⟩], [uidA]⟩
      uidA "kw5" "pi_w5" 3 (by decide) (by simp)).1
    ⟨uidA, 10, "USD", WStatus.FROZEN⟩ rfl

/-! ### Helper lemmas about the charge handlers -/

/-- The `findOneAndUpdate` filter of the two charge handlers. -/
def pendPred (pi : String) : Txn → Bool :=
  fun t => decide (t.metadata.paymentIntentId = some pi ∧ t.status = TStatus.PENDING)

theorem updateFirstPendingPI_fst (l : List Txn) (pi : String) (f : Txn → Txn) :
    (updateFirstPendingPI l pi f).1 = l.find? (pendPred pi) := by
  induction l with
  | nil => simp [updateFirstPendingPI]
  | cons t ts ih =>
    by_cases h : t.metadata.paymentIntentId = some pi ∧ t.status = TStatus.PENDING
    · simp [updateFirstPendingPI, h, pendPred, List.find?_cons]
    · simp only [updateFirstPendingPI, if_neg h, List.find?_cons]
      have hp : pendPred pi t = false := by
        simpa [pendPred] using h
      simp [hp, ih]

theorem updateFirstPendingPI_none (l : List Txn) (pi : String) (f : Txn → Txn)
    (h : l.find? (pendPred pi) = none) :
    updateFirstPendingPI l pi f = (none, l) := by
  induction l with
  | nil => simp [updateFirstPendingPI]
  | cons t ts ih =>
    rw [List.find?_cons] at h
    by_cases hp : pendPred pi t = true
    · simp [hp] at h
    · rw [Bool.not_eq_true] at hp
      rw [hp] at h
      have ht : ¬(t.metadata.paymentIntentId = some pi ∧ t.status = TStatus.PENDING) := by
        simpa [pendPred] using hp
      simp [updateFirstPendingPI, ht, ih h]

/-- Structural characterization of a hit: the list splits around the
first match, which alone is rewritten. -/
theorem updateFirstPendingPI_flip (l : List Txn) (pi : String) (f : Txn → Txn)
    (t : Txn) (h : l.find? (pendPred pi) = some t) :
    ∃ l1 l2, l = l1 ++ t :: l2 ∧
      (updateFirstPendingPI l pi f).2 = l1 ++ f t :: l2 ∧
      ∀ x ∈ l1, pendPred pi x = false := by
  induction l with
  | nil => simp at h
  | cons t0 ts ih =>
    rw [List.find?_cons] at h
    by_cases hp : pendPred pi t0 = true
    · rw [hp] at h
      have ht : t0 = t := by simpa using h
      subst ht
      have hc : t0.metadata.paymentIntentId = some pi ∧ t0.status = TStatus.PENDING := by
        simpa [pendPred] using hp
      exact ⟨[], ts, by simp, by simp [updateFirstPendingPI, hc], by simp⟩
    · rw [Bool.not_eq_true] at hp
      rw [hp] at h
      obtain ⟨l1, l2, he, hu, hall⟩ := ih h
      have ht : ¬(t0.metadata.paymentIntentId = some pi ∧ t0.status = TStatus.PENDING) := by
        simpa [pendPred] using hp
      refine ⟨t0 :: l1, l2, by simp [he], by simp [updateFirstPendingPI, ht, hu], ?_⟩
      intro x hx
      rcases List.mem_cons.mp hx with hx0 | hx1
      · subst hx0
        simpa using hp
      · exact hall x hx1

/-- `handleSuccesfullCharge` is a no-op when no PENDING transaction
carries the payment intent. -/
theorem handleSuccesfullCharge_noop (s : Store) (e : PIEvent)
    (h : s.txns.find? (pendPred e.piId) = none) :
    handleSuccesfullCharge s e = s := by
  unfold handleSuccesfullCharge
  rw [updateFirstPendingPI_none s.txns e.piId _ h]

/-- `handleSuccesfullCharge` on a hit: the commit consists of the status
flip and the (unchecked) wallet `$inc` for the pre-image's owner. -/
theorem handleSuccesfullCharge_hit (s : Store) (e : PIEvent) (t : Txn)
    (h : s.txns.find? (pendPred e.piId) = some t) :
    handleSuccesfullCharge s e =
      { s with
        txns := (updateFirstPendingPI s.txns e.piId
          (fun x => { x with status := TStatus.COMPLETED })).2,
        wallets := (walletIncFirst s.wallets t.userId e.amount).2 } := by
  unfold handleSuccesfullCharge
  rcases hu : updateFirstPendingPI s.txns e.piId
      (fun x => { x with status := TStatus.COMPLETED }) with ⟨o, l1⟩
  have ho : o = some t := by
    have h1 := updateFirstPendingPI_fst s.txns e.piId
      (fun x => { x with status := TStatus.COMPLETED })
    rw [hu] at h1
    simpa using h1.trans h
  subst ho
  simp [hu]

/-- After a hit, the flipped document is no longer PENDING; when the
payment intent occurred on at most one PENDING transaction, nothing
PENDING with that intent remains, so a second delivery is a no-op. -/
theorem handleSuccesfullCharge_idem (s : Store) (e : PIEvent)
    (hone : s.txns.countP (pendPred e.piId) ≤ 1) :
    handleSuccesfullCharge (handleSuccesfullCharge s e) e
      = handleSuccesfullCharge s e := by
  rcases h : s.txns.find? (pendPred e.piId) with _ | t
  · rw [handleSuccesfullCharge_noop s e h, handleSuccesfullCharge_noop s e h]
  · rw [handleSuccesfullCharge_hit s e t h]
    apply handleSuccesfullCharge_noop
    obtain ⟨l1, l2, he, hu, hall⟩ := updateFirstPendingPI_flip s.txns e.piId
      (fun x => { x with status := TStatus.COMPLETED }) t h
    rw [List.find?_eq_none]
    intro x hx
    rw [hu] at hx
    have hcount : l2.countP (pendPred e.piId) = 0 := by
      have hT : pendPred e.piId t = true := by
        have := List.find?_some h
        exact this
      rw [he, List.countP_append, List.countP_cons_of_pos _ _ hT] at hone
      omega
    rcases List.mem_append.mp hx with hx1 | hx2
    · simp [hall x hx1]
    · rcases List.mem_cons.mp hx2 with hx0 | hx3
      · subst hx0
        simp [pendPred]
      · have := List.countP_eq_zero.mp hcount x hx3
        simp [this]

/-! ### Claim C6: top-up amount units -/

/-- The PENDING transaction document the requires-action branch creates. -/
def topUpPendingTxn (userId key pi : String) (amt : Int) : Txn :=
  { userId := userId, type := TType.TOP_UP, amount := amt * 100,
    status := TStatus.PENDING, idempotencyKey := some key,
    metadata := { paymentIntentId := some pi } }

/-- The requires-action branch of `topUpWallet`, spelled out, when the
key is fresh. -/
theorem topUp_requiresAction_eq (s : Store) (userId key pi : String)
    (amt : Int) (cs : Option String)
    (hk : ¬key = "") (hfree : ∀ t ∈ s.txns, t.idempotencyKey ≠ some key) :
    topUpWallet s userId key amt (.requiresAction pi cs) =
      (.pending "requires_action" pi cs,
        { txns := topUpPendingTxn userId key pi amt :: s.txns,
          wallets := s.wallets, users := s.users }) := by
  simp only [topUpWallet, if_neg hk, find_completed_none s.txns key hfree,
    insertTxn, keyTaken_false s.txns key hfree, Bool.false_eq_true, if_false,
    topUpPendingTxn]

/-- A store whose only wallet is ACTIVE with balance 0, for the units
counterexample. -/
def unitsCexStore : Store := ⟨[], [⟨uidA, 0, "USD", WStatus.ACTIVE⟩], [uidA]⟩

/-- C6 counterexample: the top-up `amount` parameter is not in minor
units — a successful top-up of amount 1000 records a Transaction of
100000 minor units (not 1000) and increments the balance by 100000. -/
theorem topup_amount_units_cex :
    (topUpWallet unitsCexStore uidA "k6" 1000 (.succeeded "pi_6")).1
        = .completed (topUpCompletedTxn uidA "k6" "pi_6" 1000) ∧
    (topUpCompletedTxn uidA "k6" "pi_6" 1000).amount = 100000 ∧
    ¬(topUpCompletedTxn uidA "k6" "pi_6" 1000).amount = 1000 ∧
    balanceOf (topUpWallet unitsCexStore uidA "k6" 1000
        (.succeeded "pi_6")).2 uidA = 100000 :=
  ⟨rfl, rfl, by decide, rfl⟩

/-- C6 amended: the top-up `amount` parameter is in major units (the
validated DTO integer); a top-up of amount N records a Transaction of
N*100 minor units, and the balance increases by exactly N*100 minor
units — synchronously on the succeeded path, or via the charge-succeeded
event (carrying the intent amount N*100) on the requires-action path,
where a second delivery of the same event is a no-op. -/
theorem topup_amount_times_100 (s : Store) (userId key pi : String)
    (amt : Int) (cs : Option String) (hk : ¬key = "")
    (hfree : ∀ t ∈ s.txns, t.idempotencyKey ≠ some key) :
    (∀ t s', topUpWallet s userId key amt (.succeeded pi) = (.completed t, s') →
      t.amount = amt * 100 ∧
      balanceOf s' userId = balanceOf s userId + amt * 100) ∧
    (∀ r piR csR s',
      topUpWallet s userId key amt (.requiresAction pi cs)
          = (.pending r piR csR, s') →
      ∃ t, s'.txns = t :: s.txns ∧ s'.wallets = s.wallets ∧
        t.status = TStatus.PENDING ∧ t.amount = amt * 100 ∧
        t.metadata.paymentIntentId = some pi ∧
        ((∀ t0 ∈ s.txns, t0.metadata.paymentIntentId ≠ some pi) →
          ∀ w, findWallet s userId = some w →
          balanceOf (handleSuccesfullCharge s' ⟨pi, amt * 100⟩) userId
              = balanceOf s userId + amt * 100 ∧
          handleSuccesfullCharge (handleSuccesfullCharge s' ⟨pi, amt * 100⟩)
              ⟨pi, amt * 100⟩
            = handleSuccesfullCharge s' ⟨pi, amt * 100⟩)) := by
  constructor
  · intro t s' h
    by_cases hmz : (walletIncFirst s.wallets userId (amt * 100)).1 = 0
    · rw [topUp_succeeded_miss s userId key pi amt hk hfree hmz] at h
      simp at h
    · rw [topUp_succeeded_hit s userId key pi amt hk hfree hmz] at h
      rw [Prod.mk.injEq, TopUpResult.completed.injEq] at h
      obtain ⟨h1, h2⟩ := h
      subst h1
      subst h2
      obtain ⟨w, hw⟩ : ∃ w,
          s.wallets.find? (fun w => decide (w.userId = userId)) = some w := by
        rw [walletIncFirst_matched_zero] at hmz
        exact Option.ne_none_iff_exists'.mp hmz
      refine ⟨rfl, ?_⟩
      simp only [balanceOf, findWallet]
      rw [walletIncFirst_find s.wallets userId (amt * 100) w hw, hw]
  · intro r piR csR s' h
    rw [topUp_requiresAction_eq s userId key pi amt cs hk hfree] at h
    rw [Prod.mk.injEq] at h
    obtain ⟨h1, h2⟩ := h
    subst h2
    refine ⟨topUpPendingTxn userId key pi amt, rfl, rfl, rfl, rfl, rfl, ?_⟩
    intro hnopi w hw
    set s1 : Store :=
      { txns := topUpPendingTxn userId key pi amt :: s.txns,
        wallets := s.wallets, users := s.users } with hs1
    have hpend : pendPred pi (topUpPendingTxn userId key pi amt) = true := by
      simp [pendPred, topUpPendingTxn]
    have hfind : s1.txns.find? (pendPred pi) = some (topUpPendingTxn userId key pi amt) := by
      rw [hs1]
      exact List.find?_cons_of_pos _ hpend
    have hhit := handleSuccesfullCharge_hit s1 ⟨pi, amt * 100⟩
      (topUpPendingTxn userId key pi amt) hfind
    have hw' : s.wallets.find? (fun w => decide (w.userId = userId)) = some w := hw
    constructor
    · rw [hhit]
      simp only [balanceOf, findWallet]
      have hwu : (topUpPendingTxn userId key pi amt).userId = userId := rfl
      rw [show s1.wallets = s.wallets from rfl] at *
      rw [hwu, walletIncFirst_find s.wallets userId (amt * 100) w hw', hw']
    · apply handleSuccesfullCharge_idem
      rw [hs1]
      show List.countP (pendPred pi) (topUpPendingTxn userId key pi amt :: s.txns) ≤ 1
      rw [List.countP_cons_of_pos _ _ hpend]
      have hz : s.txns.countP (pendPred pi) = 0 := by
        rw [List.countP_eq_zero]
        intro t0 ht0
        simp [pendPred]
        intro hpi
        exact absurd hpi (hnopi t0 ht0)
      omega

/-- Witness for the amended C6: a top-up of 5 on a zero wallet commits
balance 500. -/
theorem topup_amount_times_100_witness :
    (topUpCompletedTxn uidA "kw6" "pi_w6" 5).amount = 5 * 100 ∧
    balanceOf ⟨[topUpCompletedTxn uidA "kw6" "pi_w6" 5],
        [⟨uidA, 0 + 5 * 100, "USD", WStatus.ACTIVE⟩], [uidA]⟩ uidA
      = balanceOf unitsCexStore uidA + 5 * 100 :=
  (topup_amount_times_100 unitsCexStore uidA "kw6" "pi_w6" 5 none
      (by decide) (fun t ht => by simp [unitsCexStore] at ht)).1
    (topUpCompletedTxn uidA "kw6" "pi_w6" 5)
    ⟨[topUpCompletedTxn uidA "kw6" "pi_w6" 5],
      [⟨uidA, 0 + 5 * 100, "USD", WStatus.ACTIVE⟩], [uidA]⟩
    (by rfl)

/-! ### Claim C3: charge-succeeded reconciliation -/

/-- A store holding a PENDING top-up transaction whose owner has no
wallet document (reachable: wallets are only created lazily on debit or
balance inquiry, not by the requires-action top-up path). -/
def pendingNoWalletStore : Store :=
  ⟨[⟨uidA, TType.TOP_UP, 1000, TStatus.PENDING, some "k3",
      { paymentIntentId := some "pi_3" }⟩], [], [uidA]⟩

/-- C3 counterexample: a charge-succeeded event matching a PENDING
transaction whose owner has no wallet document marks the transaction
COMPLETED but credits no wallet at all (the `$inc` is an unchecked
`findOneAndUpdate` without upsert), refuting "transitions ... and
increments the owning user's wallet balance in the same atomic
commit". -/
theorem charge_succeeded_missing_wallet_cex :
    ((pendingNoWalletStore.txns.find? (pendPred "pi_3")).map Txn.status
        = some TStatus.PENDING) ∧
    ((handleSuccesfullCharge pendingNoWalletStore ⟨"pi_3", 1000⟩).txns
        = [⟨uidA, TType.TOP_UP, 1000, TStatus.COMPLETED, some "k3",
            { paymentIntentId := some "pi_3" }⟩]) ∧
    ((handleSuccesfullCharge pendingNoWalletStore ⟨"pi_3", 1000⟩).wallets
        = []) ∧
    (balanceOf (handleSuccesfullCharge pendingNoWalletStore ⟨"pi_3", 1000⟩) uidA
        = balanceOf pendingNoWalletStore uidA) :=
  ⟨rfl, rfl, rfl, rfl⟩

/-- C3 amended: on a charge-succeeded event, if a PENDING transaction
matches the payment intent, the handler flips it to COMPLETED in the
same commit and — only when a wallet document exists for its owner —
increments that wallet by the event amount (when no wallet exists the
transaction is still completed with no credit); with no PENDING match
the handler changes no state; and (the intent occurring on at most one
PENDING transaction) delivering the same event twice changes state
exactly once — the second delivery is a no-op. -/
theorem charge_succeeded_amended (s : Store) (e : PIEvent)
    (hone : s.txns.countP (pendPred e.piId) ≤ 1) :
    (s.txns.find? (pendPred e.piId) = none → handleSuccesfullCharge s e = s) ∧
    (∀ t, s.txns.find? (pendPred e.piId) = some t →
      ({ t with status := TStatus.COMPLETED } ∈ (handleSuccesfullCharge s e).txns) ∧
      (∀ w, findWallet s t.userId = some w →
        balanceOf (handleSuccesfullCharge s e) t.userId = w.balance + e.amount) ∧
      (findWallet s t.userId = none →
        (handleSuccesfullCharge s e).wallets = s.wallets)) ∧
    (handleSuccesfullCharge (handleSuccesfullCharge s e) e
        = handleSuccesfullCharge s e) := by
  refine ⟨handleSuccesfullCharge_noop s e, ?_, handleSuccesfullCharge_idem s e hone⟩
  intro t ht
  have hhit := handleSuccesfullCharge_hit s e t ht
  obtain ⟨l1, l2, he, hu, hall⟩ := updateFirstPendingPI_flip s.txns e.piId
    (fun x => { x with status := TStatus.COMPLETED }) t ht
  refine ⟨?_, ?_, ?_⟩
  · rw [hhit]
    show _ ∈ (updateFirstPendingPI s.txns e.piId
      (fun x => { x with status := TStatus.COMPLETED })).2
    rw [hu]
    simp
  · intro w hw
    rw [hhit]
    simp only [balanceOf, findWallet]
    have hw' : s.wallets.find? (fun x => decide (x.userId = t.userId)) = some w := hw
    rw [walletIncFirst_find s.wallets t.userId e.amount w hw']
  · intro hnone
    rw [hhit]
    show (walletIncFirst s.wallets t.userId e.amount).2 = s.wallets
    exact walletIncFirst_not_found s.wallets t.userId e.amount hnone

/-- A store with the PENDING transaction and an existing wallet, for the
amended-C3 witness. -/
def pendingWithWalletStore : Store :=
  ⟨[⟨uidA, TType.TOP_UP, 1000, TStatus.PENDING, some "k3w",
      { paymentIntentId := some "pi_3w" }⟩],
    [⟨uidA, 200, "USD", WStatus.ACTIVE⟩], [uidA]⟩

/-- Witness for the amended C3: the credit is applied once. -/
theorem charge_succeeded_amended_witness :
    balanceOf (handleSuccesfullCharge pendingWithWalletStore ⟨"pi_3w", 1000⟩) uidA
        = 200 + 1000 ∧
    handleSuccesfullCharge
        (handleSuccesfullCharge pendingWithWalletStore ⟨"pi_3w", 1000⟩)
        ⟨"pi_3w", 1000⟩
      = handleSuccesfullCharge pendingWithWalletStore ⟨"pi_3w", 1000⟩ := by
  have h := charge_succeeded_amended pendingWithWalletStore ⟨"pi_3w", 1000⟩
    (by decide)
  exact ⟨((h.2.1 _ rfl).2.1 ⟨uidA, 200, "USD", WStatus.ACTIVE⟩ rfl), h.2.2⟩

/-! ### Characterization lemmas for debitWalletForCampaign -/

/-- The COMPLETED transaction document the debit path creates, with the
audit metadata computed from the pre-debit snapshot balance. -/
def campaignDebitTxn (userId key : String) (amt preBal : Int) : Txn :=
  { userId := userId, type := TType.CAMPAIGN_DEBIT, amount := amt,
    status := TStatus.COMPLETED, idempotencyKey := some key,
    metadata := { campaignId := some key, originalBalance := some preBal,
                  newBalance := some (preBal - amt) } }

/-- Elimination lemma for a successful debit: under the unique index on
`Wallet.userId`, success implies a pre-existing ACTIVE wallet with
sufficient balance; the result and the committed state are computed from
its snapshot. -/
theorem debit_ok_elim (s : Store) (userId key : String) (amt : Int)
    (d : DebitSuccess) (s' : Store)
    (hpw : s.wallets.Pairwise (fun a b => a.userId ≠ b.userId))
    (h : debitWalletForCampaign s userId key amt = (.ok d, s')) :
    ∃ w, findWallet s userId = some w ∧ w.status = WStatus.ACTIVE ∧
      amt ≤ w.balance ∧ 100 ≤ amt ∧
      d.txn = campaignDebitTxn userId key amt w.balance ∧
      d.remainingBalance = w.balance - amt ∧
      s' = { txns := campaignDebitTxn userId key amt w.balance :: s.txns,
             wallets := (walletCondDebit s.wallets userId amt).2,
             users := s.users } ∧
      balanceOf s' userId = w.balance - amt := by
  unfold debitWalletForCampaign at h
  by_cases h100 : amt < 100
  · simp [h100] at h
  · rw [if_neg h100] at h
    by_cases hdup : s.txns.any (fun t =>
        decide (t.userId = userId ∧ t.idempotencyKey = some key)) = true
    · rw [if_pos hdup] at h
      simp at h
    · rw [Bool.not_eq_true] at hdup
      rw [hdup] at h
      simp only [Bool.false_eq_true, if_false] at h
      by_cases hoid : isValidObjectId userId = true
      · rw [hoid] at h
        simp only [Bool.not_true, Bool.false_eq_true, if_false] at h
        rcases hfw : findWallet s userId with _ | w
        · -- auto-provisioned wallet: the conditional debit cannot match
          rw [hfw] at h
          dsimp only [] at h
          unfold createWalletForUser at h
          by_cases hus : s.users.contains userId = true
          · rw [if_pos hus] at h
            have hmz : (walletCondDebit
                ({ s with wallets := freshWallet userId :: s.wallets }).wallets
                  userId amt).1 = 0 := by
              rw [walletCondDebit_matched_zero]
              intro w hw hcon
              rcases List.mem_cons.mp hw with hx | hx
              · subst hx
                have : amt ≤ (0 : Int) := by
                  simpa [freshWallet] using hcon.2.1
                omega
              · exact findWallet_none_no_mem s userId hfw w hx hcon.1
            simp only [freshWallet] at hmz
            simp [hmz, freshWallet] at h
          · rw [Bool.not_eq_true] at hus
            rw [hus] at h
            simp at h
        · rw [hfw] at h
          dsimp only [] at h
          have hfw' : s.wallets.find? (fun x => decide (x.userId = userId))
              = some w := hfw
          by_cases hst : w.status = WStatus.ACTIVE
          · rw [if_pos hst] at h
            by_cases hg : amt ≤ w.balance
            · obtain ⟨hm1, hfind⟩ := walletCondDebit_unique_hit s.wallets userId
                amt w hpw hfw' ⟨hg, hst⟩
              rw [show (walletCondDebit s.wallets userId amt).1 = 1 from hm1] at h
              simp only [one_ne_zero, if_false] at h
              unfold insertTxn at h
              by_cases hkt : keyTaken s.txns (some key) = true
              · simp [hkt] at h
              · rw [Bool.not_eq_true] at hkt
                simp only [hkt, Bool.false_eq_true, if_false] at h
                rw [Prod.mk.injEq, Except.ok.injEq] at h
                obtain ⟨h1, h2⟩ := h
                refine ⟨w, rfl, hst, hg, by omega, ?_, ?_, ?_, ?_⟩
                · rw [← h1]
                  rfl
                · rw [← h1]
                · rw [← h2]
                  rfl
                · rw [← h2]
                  simp only [balanceOf, findWallet]
                  rw [hfind]
            · have hmz := walletCondDebit_unique_miss s.wallets userId amt w
                hpw hfw' (fun hc => hg hc.1)
              simp [hmz] at h
          · rw [if_neg hst] at h
            simp at h
      · rw [Bool.not_eq_true] at hoid
        simp [hoid] at h

/-- Auto-provisioning a wallet changes no effective balance: the fresh
document starts at 0, which is also the effective balance of a missing
wallet. -/
theorem balanceOf_fresh_cons (s : Store) (userId : String)
    (hfw : findWallet s userId = none) (u : String) :
    balanceOf { s with wallets := freshWallet userId :: s.wallets } u
      = balanceOf s u := by
  by_cases hu : userId = u
  · subst hu
    unfold findWallet at hfw
    unfold balanceOf findWallet
    simp only [List.find?_cons, freshWallet]
    simp [hfw]
  · unfold balanceOf findWallet
    simp only [List.find?_cons, freshWallet]
    simp [hu]

/-- Every failing debit leaves the committed state either untouched or
extended by a fresh zero-balance wallet; in both cases every user's
effective balance is unchanged. -/
theorem debit_error_state (s : Store) (userId key : String) (amt : Int)
    (e : DebitErr) (s' : Store)
    (h : debitWalletForCampaign s userId key amt = (.error e, s')) :
    (s' = s ∨ (findWallet s userId = none ∧
      s' = { s with wallets := freshWallet userId :: s.wallets })) ∧
    (∀ u, balanceOf s' u = balanceOf s u) := by
  have hstate : s' = s ∨ (findWallet s userId = none ∧
      s' = { s with wallets := freshWallet userId :: s.wallets }) := by
    unfold debitWalletForCampaign at h
    by_cases h100 : amt < 100
    · rw [if_pos h100] at h
      exact Or.inl (congrArg Prod.snd h).symm
    · rw [if_neg h100] at h
      by_cases hdup : s.txns.any (fun t =>
          decide (t.userId = userId ∧ t.idempotencyKey = some key)) = true
      · rw [if_pos hdup] at h
        exact Or.inl (congrArg Prod.snd h).symm
      · rw [Bool.not_eq_true] at hdup
        rw [hdup] at h
        simp only [Bool.false_eq_true, if_false] at h
        by_cases hoid : isValidObjectId userId = true
        · rw [hoid] at h
          simp only [Bool.not_true, Bool.false_eq_true, if_false] at h
          rcases hfw : findWallet s userId with _ | w
          · rw [hfw] at h
            dsimp only [] at h
            unfold createWalletForUser at h
            by_cases hus : s.users.contains userId = true
            · rw [if_pos hus] at h
              dsimp only [] at h
              by_cases hst : (freshWallet userId).status = WStatus.ACTIVE
              · rw [if_pos hst] at h
                by_cases hmz : (walletCondDebit
                    (freshWallet userId :: s.wallets) userId amt).1 = 0
                · rw [if_pos hmz] at h
                  exact Or.inr ⟨rfl, (congrArg Prod.snd h).symm⟩
                · rw [if_neg hmz] at h
                  split at h
                  · exact Or.inr ⟨rfl, (congrArg Prod.snd h).symm⟩
                  · simp at h
              · exact absurd rfl hst
            · rw [Bool.not_eq_true] at hus
              rw [hus] at h
              simp only [Bool.false_eq_true, if_false] at h
              exact Or.inl (congrArg Prod.snd h).symm
          · rw [hfw] at h
            dsimp only [] at h
            by_cases hst : w.status = WStatus.ACTIVE
            · rw [if_pos hst] at h
              by_cases hmz : (walletCondDebit s.wallets userId amt).1 = 0
              · rw [if_pos hmz] at h
                exact Or.inl (congrArg Prod.snd h).symm
              · rw [if_neg hmz] at h
                split at h
                · exact Or.inl (congrArg Prod.snd h).symm
                · simp at h
            · rw [if_neg hst] at h
              exact Or.inl (congrArg Prod.snd h).symm
        · rw [Bool.not_eq_true] at hoid
          simp only [hoid, Bool.not_false, if_true] at h
          exact Or.inl (congrArg Prod.snd h).symm
  refine ⟨hstate, ?_⟩
  rcases hstate with hs | ⟨hfw, hs⟩
  · subst hs
    intro u
    rfl
  · subst hs
    exact balanceOf_fresh_cons s userId hfw

/-- A successful debit presupposes that the unique index accepted the
COMPLETED insert, so the key was free. -/
theorem debit_ok_keyFree (s : Store) (userId key : String) (amt : Int)
    (d : DebitSuccess) (s' : Store)
    (h : debitWalletForCampaign s userId key amt = (.ok d, s')) :
    keyTaken s.txns (some key) = false := by
  by_cases hkt : keyTaken s.txns (some key) = true
  · exfalso
    unfold debitWalletForCampaign at h
    by_cases h100 : amt < 100
    · rw [if_pos h100] at h
      simp at h
    · rw [if_neg h100] at h
      by_cases hdup : s.txns.any (fun t =>
          decide (t.userId = userId ∧ t.idempotencyKey = some key)) = true
      · rw [if_pos hdup] at h
        simp at h
      · rw [Bool.not_eq_true] at hdup
        rw [hdup] at h
        simp only [Bool.false_eq_true, if_false] at h
        by_cases hoid : isValidObjectId userId = true
        · rw [hoid] at h
          simp only [Bool.not_true, Bool.false_eq_true, if_false] at h
          rcases hfw : findWallet s userId with _ | w
          · rw [hfw] at h
            dsimp only [] at h
            unfold createWalletForUser at h
            by_cases hus : s.users.contains userId = true
            · rw [if_pos hus] at h
              dsimp only [] at h
              rw [if_pos (show (freshWallet userId).status
                  = WStatus.ACTIVE from rfl)] at h
              by_cases hmz : (walletCondDebit (freshWallet userId :: s.wallets)
                  userId amt).1 = 0
              · rw [if_pos hmz] at h
                simp at h
              · rw [if_neg hmz] at h
                unfold insertTxn at h
                rw [if_pos hkt] at h
                simp at h
            · rw [Bool.not_eq_true] at hus
              rw [hus] at h
              simp at h
          · rw [hfw] at h
            dsimp only [] at h
            by_cases hst : w.status = WStatus.ACTIVE
            · rw [if_pos hst] at h
              by_cases hmz : (walletCondDebit s.wallets userId amt).1 = 0
              · rw [if_pos hmz] at h
                simp at h
              · rw [if_neg hmz] at h
                unfold insertTxn at h
                rw [if_pos hkt] at h
                simp at h
            · rw [if_neg hst] at h
              simp at h
        · rw [Bool.not_eq_true] at hoid
          simp only [hoid, Bool.not_false, if_true] at h
          simp at h
  · simpa using hkt

/-! ### Claim C1: conditional debit -/

/-- C1: the debit decrement is applied only when `balance >= amount` and
`status == ACTIVE`, as one conditional update: a successful call implies
the wallet was ACTIVE with sufficient balance and commits exactly
`balance - amount` (never negative); a failing call leaves every
effective balance unchanged; and when the earlier validations pass but
the condition fails, the error is InsufficientFunds or WalletInactive. -/
theorem debit_conditional_update (s : Store) (userId key : String)
    (amt : Int)
    (hpw : s.wallets.Pairwise (fun a b => a.userId ≠ b.userId)) :
    (∀ d s', debitWalletForCampaign s userId key amt = (.ok d, s') →
      ∃ w, findWallet s userId = some w ∧ w.status = WStatus.ACTIVE ∧
        amt ≤ w.balance ∧ balanceOf s' userId = w.balance - amt ∧
        0 ≤ balanceOf s' userId) ∧
    (∀ e s', debitWalletForCampaign s userId key amt = (.error e, s') →
      ∀ u, balanceOf s' u = balanceOf s u) ∧
    (100 ≤ amt →
      (∀ t ∈ s.txns, ¬(t.userId = userId ∧ t.idempotencyKey = some key)) →
      isValidObjectId userId = true →
      (findWallet s userId = none → s.users.contains userId = true) →
      (∀ w, findWallet s userId = some w →
        ¬(w.status = WStatus.ACTIVE ∧ amt ≤ w.balance)) →
      ∃ s', debitWalletForCampaign s userId key amt
          = (.error .insufficientFunds, s') ∨
        debitWalletForCampaign s userId key amt
          = (.error .walletInactive, s')) := by
  refine ⟨?_, ?_, ?_⟩
  · intro d s' h
    obtain ⟨w, hfw, hst, hg, _, _, _, _, hbal⟩ :=
      debit_ok_elim s userId key amt d s' hpw h
    exact ⟨w, hfw, hst, hg, hbal, by omega⟩
  · intro e s' h
    exact (debit_error_state s userId key amt e s' h).2
  · intro h100 hnodup hoid huser hng
    have h100' : ¬amt < 100 := by omega
    have hdup : s.txns.any (fun t =>
        decide (t.userId = userId ∧ t.idempotencyKey = some key)) = false := by
      simp only [List.any_eq_false, decide_eq_true_eq]
      exact hnodup
    unfold debitWalletForCampaign
    rw [if_neg h100', hdup]
    simp only [Bool.false_eq_true, if_false, hoid, Bool.not_true]
    rcases hfw : findWallet s userId with _ | w
    · unfold createWalletForUser
      rw [if_pos (huser hfw)]
      dsimp only []
      have hmz : (walletCondDebit (freshWallet userId :: s.wallets)
          userId amt).1 = 0 := by
        rw [walletCondDebit_matched_zero]
        intro w hw hcon
        rcases List.mem_cons.mp hw with hx | hx
        · subst hx
          have : amt ≤ (0 : Int) := by simpa [freshWallet] using hcon.2.1
          omega
        · exact findWallet_none_no_mem s userId hfw w hx hcon.1
      rw [if_pos (show (freshWallet userId).status = WStatus.ACTIVE from rfl)]
      rw [if_pos hmz]
      exact ⟨_, Or.inl rfl⟩
    · have hfw' : s.wallets.find? (fun x => decide (x.userId = userId))
          = some w := hfw
      dsimp only []
      by_cases hst : w.status = WStatus.ACTIVE
      · have hnb : ¬amt ≤ w.balance := fun hb => hng w hfw ⟨hst, hb⟩
        have hmz := walletCondDebit_unique_miss s.wallets userId amt w
          hpw hfw' (fun hc => hnb hc.1)
        rw [if_pos hst, if_pos hmz]
        exact ⟨_, Or.inl rfl⟩
      · rw [if_neg hst]
        exact ⟨_, Or.inr rfl⟩

/-- Store for the C1 witness: one ACTIVE wallet with balance 500. -/
def debitWitnessStore : Store :=
  ⟨[], [⟨uidA, 500, "USD", WStatus.ACTIVE⟩], [uidA]⟩

/-- Witness for C1: debit 300 from balance 500 commits 200. -/
theorem debit_conditional_update_witness :
    ∃ w, findWallet debitWitnessStore uidA = some w ∧
      w.status = WStatus.ACTIVE ∧ (300 : Int) ≤ w.balance ∧
      balanceOf ⟨[campaignDebitTxn uidA "c1" 300 500],
        [⟨uidA, 200, "USD", WStatus.ACTIVE⟩], [uidA]⟩ uidA = w.balance - 300 ∧
      0 ≤ balanceOf ⟨[campaignDebitTxn uidA "c1" 300 500],
        [⟨uidA, 200, "USD", WStatus.ACTIVE⟩], [uidA]⟩ uidA :=
  (debit_conditional_update debitWitnessStore uidA "c1" 300
      (by simp [debitWitnessStore])).1
    { txn := campaignDebitTxn uidA "c1" 300 500, remainingBalance := 200 }
    ⟨[campaignDebitTxn uidA "c1" 300 500],
      [⟨uidA, 200, "USD", WStatus.ACTIVE⟩], [uidA]⟩
    (by rfl)

/-! ### Claim C7: wallet auto-provisioning on first debit -/

/-- C7: a debit for an existing user with no wallet document first
creates a 0-balance ACTIVE wallet, then fails the conditional update
with InsufficientFunds (not wallet-not-found); the created wallet
persists with balance 0 and no COMPLETED transaction carries the key. -/
theorem debit_autoprovision (s : Store) (userId key : String) (amt : Int)
    (hamt : 100 ≤ amt) (hoid : isValidObjectId userId = true)
    (huser : s.users.contains userId = true)
    (hnow : findWallet s userId = none)
    (hfree : ∀ t ∈ s.txns, t.idempotencyKey ≠ some key) :
    debitWalletForCampaign s userId key amt
        = (.error .insufficientFunds,
            { s with wallets := freshWallet userId :: s.wallets }) ∧
    findWallet { s with wallets := freshWallet userId :: s.wallets } userId
        = some (freshWallet userId) ∧
    balanceOf { s with wallets := freshWallet userId :: s.wallets } userId
        = 0 ∧
    (freshWallet userId).status = WStatus.ACTIVE ∧
    (∀ t ∈ ({ s with wallets := freshWallet userId :: s.wallets } : Store).txns,
      ¬(t.idempotencyKey = some key ∧ t.status = TStatus.COMPLETED)) := by
  refine ⟨?_, ?_, ?_, rfl, ?_⟩
  · have h100' : ¬amt < 100 := by omega
    have hdup : s.txns.any (fun t =>
        decide (t.userId = userId ∧ t.idempotencyKey = some key)) = false := by
      simp only [List.any_eq_false, decide_eq_true_eq]
      intro t ht hcon
      exact hfree t ht hcon.2
    unfold debitWalletForCampaign
    rw [if_neg h100', hdup]
    simp only [Bool.false_eq_true, if_false, hoid, Bool.not_true]
    rw [hnow]
    unfold createWalletForUser
    rw [if_pos huser]
    dsimp only []
    have hmz : (walletCondDebit (freshWallet userId :: s.wallets)
        userId amt).1 = 0 := by
      rw [walletCondDebit_matched_zero]
      intro w hw hcon
      rcases List.mem_cons.mp hw with hx | hx
      · subst hx
        have : amt ≤ (0 : Int) := by simpa [freshWallet] using hcon.2.1
        omega
      · exact findWallet_none_no_mem s userId hnow w hx hcon.1
    rw [if_pos (show (freshWallet userId).status = WStatus.ACTIVE from rfl)]
    rw [if_pos hmz]
  · unfold findWallet
    simp [freshWallet]
  · unfold balanceOf findWallet
    simp [freshWallet]
  · intro t ht hcon
    exact hfree t ht hcon.1

/-- Witness for C7: first-ever debit of 100 cents for user `uidA`. -/
theorem debit_autoprovision_witness :
    debitWalletForCampaign ⟨[], [], [uidA]⟩ uidA "c7" 100
        = (.error .insufficientFunds,
            { txns := [], wallets := [freshWallet uidA], users := [uidA] }) ∧
    balanceOf { txns := [], wallets := [freshWallet uidA], users := [uidA] }
        uidA = 0 := by
  have h := debit_autoprovision ⟨[], [], [uidA]⟩ uidA "c7" 100
    (by omega) (by decide) (by decide) rfl (by simp)
  exact ⟨h.1, h.2.2.1⟩

/-! ### Claim C8: duplicate idempotency key rejection -/

/-- A second 24-hex-character user id for the cross-user
counterexample. -/
def uidB : String := "bbbbbbbbbbbbbbbbbbbbbbbb"

/-- A store where the key `k8` is held by a transaction of user A while
user B (who has funds) retries the same key. -/
def crossUserStore : Store :=
  ⟨[⟨uidA, TType.CAMPAIGN_DEBIT, 300, TStatus.COMPLETED, some "k8",
      { campaignId := some "k8" }⟩],
    [⟨uidB, 500, "USD", WStatus.ACTIVE⟩], [uidA, uidB]⟩

/-- C8 counterexample: the duplicate check filters by `userId` and
`idempotencyKey` together, so a key already present on another user's
transaction passes the check, the debit is applied and then rolled back
by the unique index, and the caller gets the generic
database-operation-failed error — not DuplicateTransaction — refuting
the claim for keys that appear on an existing transaction of a
different user. -/
theorem duplicate_key_cross_user_cex :
    (crossUserStore.txns.map Txn.idempotencyKey = [some "k8"]) ∧
    debitWalletForCampaign crossUserStore uidB "k8" 300
        = (.error .dbFailed, crossUserStore) ∧
    DebitErr.dbFailed ≠ DebitErr.duplicateTransaction :=
  ⟨rfl, by rfl, by decide⟩

/-- C8 amended: a debit whose idempotencyKey already appears on an
existing transaction *of the same user* is rejected with
DuplicateTransaction (distinct from InsufficientFunds) and no state
change; when the key appears only on another user's transaction
(a cross-user key collision) the call is instead rejected by the
store's unique index as an internal database error; in every case where
the key is already present, the call cannot succeed and no effective
balance changes. -/
theorem duplicate_key_rejection (s : Store) (userId key : String)
    (amt : Int) (hkey : ∃ t ∈ s.txns, t.idempotencyKey = some key) :
    ((∃ t ∈ s.txns, t.userId = userId ∧ t.idempotencyKey = some key) →
      100 ≤ amt →
      debitWalletForCampaign s userId key amt
        = (.error .duplicateTransaction, s)) ∧
    (∀ d s', debitWalletForCampaign s userId key amt ≠ (.ok d, s')) ∧
    (∀ r s', debitWalletForCampaign s userId key amt = (r, s') →
      ∀ u, balanceOf s' u = balanceOf s u) := by
  have hkt : keyTaken s.txns (some key) = true := by
    obtain ⟨t, ht, hk⟩ := hkey
    simp only [keyTaken, List.any_eq_true, decide_eq_true_eq]
    exact ⟨t, ht, hk⟩
  refine ⟨?_, ?_, ?_⟩
  · intro hdup h100
    have h100' : ¬amt < 100 := by omega
    have hany : s.txns.any (fun t =>
        decide (t.userId = userId ∧ t.idempotencyKey = some key)) = true := by
      obtain ⟨t, ht, hu, hk⟩ := hdup
      simp only [List.any_eq_true, decide_eq_true_eq]
      exact ⟨t, ht, hu, hk⟩
    unfold debitWalletForCampaign
    rw [if_neg h100', if_pos hany]
  · intro d s' h
    have := debit_ok_keyFree s userId key amt d s' h
    rw [this] at hkt
    exact absurd hkt (by simp)
  · intro r s' h u
    rcases r with e | d
    · exact (debit_error_state s userId key amt e s' h).2 u
    · have := debit_ok_keyFree s userId key amt d s' h
      rw [this] at hkt
      exact absurd hkt (by simp)

/-- Store for the C8 witness: the key `k8w` already billed for `uidA`. -/
def sameUserDupStore : Store :=
  ⟨[⟨uidA, TType.CAMPAIGN_DEBIT, 300, TStatus.COMPLETED, some "k8w",
      { campaignId := some "k8w" }⟩],
    [⟨uidA, 500, "USD", WStatus.ACTIVE⟩], [uidA]⟩

/-- Witness for the amended C8: the same-user retry gets
DuplicateTransaction with no state change. -/
theorem duplicate_key_rejection_witness :
    debitWalletForCampaign sameUserDupStore uidA "k8w" 300
        = (.error .duplicateTransaction, sameUserDupStore) :=
  (duplicate_key_rejection sameUserDupStore uidA "k8w" 300
      ⟨⟨uidA, TType.CAMPAIGN_DEBIT, 300, TStatus.COMPLETED, some "k8w",
          { campaignId := some "k8w" }⟩, by simp [sameUserDupStore], rfl⟩).1
    ⟨⟨uidA, TType.CAMPAIGN_DEBIT, 300, TStatus.COMPLETED, some "k8w",
        { campaignId := some "k8w" }⟩, by simp [sameUserDupStore], rfl, rfl⟩
    (by omega)

/-! ### Claim C10: remaining balance computed from the snapshot -/

/-- C10: for every successful debit, the returned `remainingBalance`
equals the recorded metadata `newBalance`, both equal
`originalBalance - amountInCents`, and `originalBalance` is the wallet
balance read before the conditional update; the same value is what the
commit leaves as the wallet's balance. -/
theorem debit_balance_snapshot (s : Store) (userId key : String)
    (amt : Int)
    (hpw : s.wallets.Pairwise (fun a b => a.userId ≠ b.userId)) :
    ∀ d s', debitWalletForCampaign s userId key amt = (.ok d, s') →
      ∃ w, findWallet s userId = some w ∧
        d.remainingBalance = w.balance - amt ∧
        d.txn.metadata.newBalance = some (w.balance - amt) ∧
        d.txn.metadata.originalBalance = some w.balance ∧
        d.remainingBalance = balanceOf s' userId := by
  intro d s' h
  obtain ⟨w, hfw, _, _, _, htxn, hrem, _, hbal⟩ :=
    debit_ok_elim s userId key amt d s' hpw h
  refine ⟨w, hfw, hrem, ?_, ?_, by rw [hrem, hbal]⟩
  · rw [htxn]
    rfl
  · rw [htxn]
    rfl

/-- Witness for C10 at the concrete 500-barrier store. -/
theorem debit_balance_snapshot_witness :
    ∃ w, findWallet debitWitnessStore uidA = some w ∧
      (200 : Int) = w.balance - 300 ∧
      (campaignDebitTxn uidA "c10" 300 500).metadata.newBalance
          = some (w.balance - 300) ∧
      (campaignDebitTxn uidA "c10" 300 500).metadata.originalBalance
          = some w.balance ∧
      (200 : Int) = balanceOf ⟨[campaignDebitTxn uidA "c10" 300 500],
        [⟨uidA, 200, "USD", WStatus.ACTIVE⟩], [uidA]⟩ uidA :=
  debit_balance_snapshot debitWitnessStore uidA "c10" 300
    (by simp [debitWitnessStore])
    { txn := campaignDebitTxn uidA "c10" 300 500, remainingBalance := 200 }
    ⟨[campaignDebitTxn uidA "c10" 300 500],
      [⟨uidA, 200, "USD", WStatus.ACTIVE⟩], [uidA]⟩
    (by rfl)

/-! ### Claim C2: idempotency under arbitrary interleavings

Concurrency model: MongoDB serializes the transactional commits and the
single-document writes, so any concurrent execution of `topUpWallet` /
`debitWalletForCampaign` / the charge handlers is equivalent to some
sequence of these atomic commits (the out-of-session pre-checks may run
against stale state, which this model captures by not assuming any
pre-check: the scheduler may issue any commit at any time).  Each
constructor is one atomic commit the services perform; amounts are
already in minor units. -/

inductive AtomicOp where
  /-- the succeeded-top-up session: COMPLETED insert plus wallet `$inc`
  with matched-count check, all-or-nothing. -/
  | topUpCommit (userId key piId : String) (amountCents : Int)
  /-- the requires-action/processing PENDING insert. -/
  | insertPendingTopUp (userId key piId : String) (amountCents : Int)
  /-- a FAILED-transaction insert (declined card or gateway error). -/
  | insertFailedTopUp (userId key : String) (amountCents : Int)
      (errMsg : Option String)
  /-- the campaign-debit session: conditional debit plus COMPLETED
  insert, all-or-nothing. -/
  | debitCommit (userId key : String) (amountCents : Int)
  /-- `handleSuccesfullCharge` for a payment-intent event. -/
  | chargeSucceeded (piId : String) (amountCents : Int)
  /-- `handleFailedCharge` for a payment-intent event. -/
  | chargeFailed (piId : String) (errMsg : Option String)
  /-- `createWalletForUser`-style lazy wallet provisioning. -/
  | createWallet (userId : String)
deriving DecidableEq, Repr

/-- The transaction documents the commits insert. -/
def opTopUpTxn (u k pi : String) (a : Int) (st : TStatus) : Txn :=
  { userId := u, type := TType.TOP_UP, amount := a, status := st,
    idempotencyKey := some k, metadata := { paymentIntentId := some pi } }

def opFailedTxn (u k : String) (a : Int) (msg : Option String) : Txn :=
  { userId := u, type := TType.TOP_UP, amount := a,
    status := TStatus.FAILED, idempotencyKey := some k,
    metadata := { errorMessage := msg } }

def opDebitTxn (u k : String) (a preBal : Int) : Txn :=
  { userId := u, type := TType.CAMPAIGN_DEBIT, amount := a,
    status := TStatus.COMPLETED, idempotencyKey := some k,
    metadata := { campaignId := some k, originalBalance := some preBal,
                  newBalance := some (preBal - a) } }

/-- The succeeded-top-up session: COMPLETED insert plus checked
`$inc`, all-or-nothing. -/
def applyTopUpCommit (s : Store) (u k pi : String) (a : Int) : Store :=
  match insertTxn s (opTopUpTxn u k pi a TStatus.COMPLETED) with
  | none => s
  | some s1 =>
    if (walletIncFirst s1.wallets u a).1 = 0 then s
    else { s1 with wallets := (walletIncFirst s1.wallets u a).2 }

/-- A lone transaction insert (PENDING or FAILED path). -/
def applyInsert (s : Store) (t : Txn) : Store :=
  match insertTxn s t with
  | none => s
  | some s1 => s1

/-- The campaign-debit session: conditional debit plus COMPLETED
insert, all-or-nothing. -/
def applyDebitCommit (s : Store) (u k : String) (a : Int) : Store :=
  if (walletCondDebit s.wallets u a).1 = 0 then s
  else
    match insertTxn { s with wallets := (walletCondDebit s.wallets u a).2 }
        (opDebitTxn u k a (balanceOf s u)) with
    | none => s
    | some s2 => s2

/-- Lazy wallet provisioning. -/
def applyCreateWallet (s : Store) (u : String) : Store :=
  match findWallet s u with
  | some _ => s
  | none => { s with wallets := freshWallet u :: s.wallets }

/-- One atomic commit.  A failed commit (duplicate key, or no wallet
matched on the succeeded-top-up path) aborts and leaves the store
unchanged. -/
def applyOp (s : Store) : AtomicOp → Store
  | .topUpCommit u k pi a => applyTopUpCommit s u k pi a
  | .insertPendingTopUp u k pi a =>
    applyInsert s (opTopUpTxn u k pi a TStatus.PENDING)
  | .insertFailedTopUp u k a msg => applyInsert s (opFailedTxn u k a msg)
  | .debitCommit u k a => applyDebitCommit s u k a
  | .chargeSucceeded pi a => handleSuccesfullCharge s ⟨pi, a⟩
  | .chargeFailed pi msg => handleFailedCharge s ⟨pi, 0⟩ msg
  | .createWallet u => applyCreateWallet s u

def applyOps (s : Store) : List AtomicOp → Store
  | [] => s
  | op :: rest => applyOps (applyOp s op) rest

/-- Does this transaction hold the idempotency key `k`? -/
def keyMatch (k : String) (t : Txn) : Bool :=
  decide (t.idempotencyKey = some k)

/-- Number of transactions holding the key. -/
def keyCount (s : Store) (k : String) : Nat :=
  s.txns.countP (keyMatch k)

/-- Number of COMPLETED transactions holding the key. -/
def completedKeyCount (s : Store) (k : String) : Nat :=
  s.txns.countP (fun t => keyMatch k t && decide (t.status = TStatus.COMPLETED))

/-- Status of the key's transaction (the first one found). -/
def keyStatus (s : Store) (k : String) : Option TStatus :=
  (s.txns.find? (keyMatch k)).map Txn.status

/-- Effect of the succeeded-top-up commit on behalf of key `k`. -/
def effectTopUpCommit (k : String) (s : Store) (u k' pi : String)
    (a : Int) : Nat :=
  match insertTxn s (opTopUpTxn u k' pi a TStatus.COMPLETED) with
  | none => 0
  | some s1 =>
    if (walletIncFirst s1.wallets u a).1 = 0 then 0
    else if k' = k then 1 else 0

/-- Effect of the campaign-debit commit on behalf of key `k`. -/
def effectDebitCommit (k : String) (s : Store) (u k' : String)
    (a : Int) : Nat :=
  if (walletCondDebit s.wallets u a).1 = 0 then 0
  else
    match insertTxn { s with wallets := (walletCondDebit s.wallets u a).2 }
        (opDebitTxn u k' a (balanceOf s u)) with
    | none => 0
    | some _ => if k' = k then 1 else 0

/-- Effect of a charge-succeeded delivery on behalf of key `k`. -/
def effectChargeSucceeded (k : String) (s : Store) (pi : String)
    (a : Int) : Nat :=
  match s.txns.find? (pendPred pi) with
  | none => 0
  | some t =>
    if (walletIncFirst s.wallets t.userId a).1 = 0 then 0
    else if t.idempotencyKey = some k then 1 else 0

/-- Number of balance effects an atomic commit performs on behalf of
key `k` in state `s`: 1 exactly when the commit goes through and
changes a wallet balance for a transaction holding `k`. -/
def opEffect (k : String) (s : Store) : AtomicOp → Nat
  | .topUpCommit u k' pi a => effectTopUpCommit k s u k' pi a
  | .debitCommit u k' a => effectDebitCommit k s u k' a
  | .chargeSucceeded pi a => effectChargeSucceeded k s pi a
  | _ => 0

/-- Balance effects for key `k` along a whole schedule. -/
def effectsFor (k : String) : Store → List AtomicOp → Nat
  | _, [] => 0
  | s, op :: rest => opEffect k s op + effectsFor k (applyOp s op) rest

/-! ### Invariant lemmas for the interleaving model -/

/-- With at most one match in the list, any two matching members are
equal. -/
theorem countP_le_one_unique {α : Type} (l : List α) (p : α → Bool)
    (h : l.countP p ≤ 1) (a b : α) (ha : a ∈ l) (hb : b ∈ l)
    (hpa : p a = true) (hpb : p b = true) : a = b := by
  induction l with
  | nil => simp at ha
  | cons x xs ih =>
    rw [List.countP_cons] at h
    rcases List.mem_cons.mp ha with hax | ha'
    · rcases List.mem_cons.mp hb with hbx | hb'
      · rw [hax, hbx]
      · exfalso
        have hpx : p x = true := hax ▸ hpa
        rw [hpx] at h
        simp at h
        exact absurd hpb (by simp [h b hb'])
    · rcases List.mem_cons.mp hb with hbx | hb'
      · exfalso
        have hpx : p x = true := hbx ▸ hpb
        rw [hpx] at h
        simp at h
        exact absurd hpa (by simp [h a ha'])
      · have hxs : xs.countP p ≤ 1 := by
          by_cases hx : p x = true
          · rw [hx] at h
            simp at h
            have h0 : xs.countP p = 0 :=
              List.countP_eq_zero.mpr (fun a ha => by simp [h a ha])
            simp [h0]
          · rw [Bool.not_eq_true] at hx
            rw [hx] at h
            simpa using h
        exact ih hxs ha' hb'

/-- Replacing a non-matching element by another non-matching element
does not change `find?`. -/
theorem find?_replace_not {α : Type} (l1 l2 : List α) (a b : α)
    (p : α → Bool) (ha : p a = false) (hb : p b = false) :
    (l1 ++ b :: l2).find? p = (l1 ++ a :: l2).find? p := by
  induction l1 with
  | nil =>
    simp only [List.nil_append, List.find?_cons, ha, hb]
  | cons x xs ih =>
    simp only [List.cons_append, List.find?_cons]
    rcases hx : p x
    · exact ih
    · rfl

/-- `find?` lands on the first matching element after a non-matching
prefix. -/
theorem find?_append_first {α : Type} (l1 l2 : List α) (b : α)
    (p : α → Bool) (hl1 : ∀ x ∈ l1, p x = false) (hb : p b = true) :
    (l1 ++ b :: l2).find? p = some b := by
  induction l1 with
  | nil => simp [List.find?_cons, hb]
  | cons x xs ih =>
    simp only [List.cons_append, List.find?_cons, hl1 x (by simp)]
    exact ih (fun y hy => hl1 y (by simp [hy]))

/-- A key not present under the unique index has count 0. -/
theorem keyTaken_false_count (txns : List Txn) (k : String)
    (h : keyTaken txns (some k) = false) :
    txns.countP (keyMatch k) = 0 := by
  rw [List.countP_eq_zero]
  intro t ht
  simp only [keyTaken, List.any_eq_false] at h
  simpa [keyMatch] using h t ht

/-- A successful insert prepends the document; the unique index was
free. -/
theorem insertTxn_some_elim (s : Store) (t : Txn) (s1 : Store)
    (h : insertTxn s t = some s1) :
    s1 = { s with txns := t :: s.txns } ∧
      keyTaken s.txns t.idempotencyKey = false := by
  unfold insertTxn at h
  by_cases hkt : keyTaken s.txns t.idempotencyKey = true
  · rw [if_pos hkt] at h
    simp at h
  · rw [Bool.not_eq_true] at hkt
    refine ⟨?_, hkt⟩
    rw [hkt] at h
    simp at h
    exact h.symm

/-- `handleFailedCharge` is a no-op when nothing PENDING matches. -/
theorem handleFailedCharge_noop (s : Store) (e : PIEvent)
    (msg : Option String) (h : s.txns.find? (pendPred e.piId) = none) :
    handleFailedCharge s e msg = s := by
  unfold handleFailedCharge
  rw [updateFirstPendingPI_none s.txns e.piId _ h]

/-- `handleFailedCharge` on a hit rewrites only the transaction list. -/
theorem handleFailedCharge_hit (s : Store) (e : PIEvent)
    (msg : Option String) (t : Txn)
    (h : s.txns.find? (pendPred e.piId) = some t) :
    handleFailedCharge s e msg =
      { s with txns :=
        (updateFirstPendingPI s.txns e.piId (failUpd msg)).2 } := by
  unfold handleFailedCharge
  rcases hu : updateFirstPendingPI s.txns e.piId (failUpd msg) with ⟨o, l1⟩
  have ho : o = some t := by
    have h1 := updateFirstPendingPI_fst s.txns e.piId (failUpd msg)
    rw [hu] at h1
    simpa using h1.trans h
  subst ho
  simp [hu]

/-- Every atomic commit either leaves the transaction collection
unchanged, prepends a document whose key was free, or rewrites exactly
one PENDING document keeping its key. -/
theorem applyOp_txns_shape (s : Store) (op : AtomicOp) :
    (applyOp s op).txns = s.txns ∨
    (∃ t, (applyOp s op).txns = t :: s.txns ∧
      keyTaken s.txns t.idempotencyKey = false) ∨
    (∃ t t' l1 l2, s.txns = l1 ++ t :: l2 ∧
      (applyOp s op).txns = l1 ++ t' :: l2 ∧
      t'.idempotencyKey = t.idempotencyKey ∧
      t.status = TStatus.PENDING) := by
  cases op with
  | topUpCommit u k pi a =>
    simp only [applyOp, applyTopUpCommit]
    rcases hins : insertTxn s (opTopUpTxn u k pi a TStatus.COMPLETED) with _ | s1
    · exact Or.inl rfl
    · obtain ⟨hs1, hfree⟩ := insertTxn_some_elim s _ s1 hins
      dsimp only []
      by_cases hmz : (walletIncFirst s1.wallets u a).1 = 0
      · rw [if_pos hmz]
        exact Or.inl rfl
      · rw [if_neg hmz]
        refine Or.inr (Or.inl ⟨opTopUpTxn u k pi a TStatus.COMPLETED, ?_, hfree⟩)
        rw [hs1]
  | insertPendingTopUp u k pi a =>
    simp only [applyOp, applyInsert]
    rcases hins : insertTxn s (opTopUpTxn u k pi a TStatus.PENDING) with _ | s1
    · exact Or.inl rfl
    · obtain ⟨hs1, hfree⟩ := insertTxn_some_elim s _ s1 hins
      refine Or.inr (Or.inl ⟨opTopUpTxn u k pi a TStatus.PENDING, ?_, hfree⟩)
      rw [hs1]
  | insertFailedTopUp u k a msg =>
    simp only [applyOp, applyInsert]
    rcases hins : insertTxn s (opFailedTxn u k a msg) with _ | s1
    · exact Or.inl rfl
    · obtain ⟨hs1, hfree⟩ := insertTxn_some_elim s _ s1 hins
      refine Or.inr (Or.inl ⟨opFailedTxn u k a msg, ?_, hfree⟩)
      rw [hs1]
  | debitCommit u k a =>
    simp only [applyOp, applyDebitCommit]
    by_cases hmz : (walletCondDebit s.wallets u a).1 = 0
    · rw [if_pos hmz]
      exact Or.inl rfl
    · rw [if_neg hmz]
      rcases hins : insertTxn
          { s with wallets := (walletCondDebit s.wallets u a).2 }
          (opDebitTxn u k a (balanceOf s u)) with _ | s2
      · exact Or.inl rfl
      · obtain ⟨hs2, hfree⟩ := insertTxn_some_elim _ _ s2 hins
        refine Or.inr (Or.inl ⟨opDebitTxn u k a (balanceOf s u), ?_, hfree⟩)
        rw [hs2]
  | chargeSucceeded pi a =>
    simp only [applyOp]
    rcases hf : s.txns.find? (pendPred pi) with _ | t
    · rw [handleSuccesfullCharge_noop s ⟨pi, a⟩ hf]
      exact Or.inl rfl
    · rw [handleSuccesfullCharge_hit s ⟨pi, a⟩ t hf]
      obtain ⟨l1, l2, he, hu, _⟩ := updateFirstPendingPI_flip s.txns pi
        (fun x => { x with status := TStatus.COMPLETED }) t hf
      refine Or.inr (Or.inr ⟨t, _, l1, l2, he, hu, rfl, ?_⟩)
      have := List.find?_some hf
      simp [pendPred] at this
      exact this.2
  | chargeFailed pi msg =>
    simp only [applyOp]
    rcases hf : s.txns.find? (pendPred pi) with _ | t
    · rw [handleFailedCharge_noop s ⟨pi, 0⟩ msg hf]
      exact Or.inl rfl
    · rw [handleFailedCharge_hit s ⟨pi, 0⟩ msg t hf]
      obtain ⟨l1, l2, he, hu, _⟩ := updateFirstPendingPI_flip s.txns pi
        (failUpd msg) t hf
      refine Or.inr (Or.inr ⟨t, failUpd msg t, l1, l2, he, hu, rfl, ?_⟩)
      have := List.find?_some hf
      simp [pendPred] at this
      exact this.2
  | createWallet u =>
    simp only [applyOp, applyCreateWallet]
    rcases hf : findWallet s u with _ | w
    · exact Or.inl rfl
    · exact Or.inl rfl

/-- The unique-index invariant (at most one transaction per key) is
preserved by every atomic commit. -/
theorem applyOp_keyCount_le (s : Store) (k : String) (op : AtomicOp)
    (h : keyCount s k ≤ 1) : keyCount (applyOp s op) k ≤ 1 := by
  rcases applyOp_txns_shape s op with hsh | ⟨t, hsh, hfree⟩ |
    ⟨t, t', l1, l2, he, hsh, hkk, _⟩
  · unfold keyCount at h ⊢
    rw [hsh]
    exact h
  · unfold keyCount at h ⊢
    rw [hsh, List.countP_cons]
    by_cases hm : keyMatch k t = true
    · have hkey : t.idempotencyKey = some k := by simpa [keyMatch] using hm
      rw [hkey] at hfree
      have h0 := keyTaken_false_count s.txns k hfree
      simp [hm, h0]
    · rw [Bool.not_eq_true] at hm
      simp [hm, h]
  · unfold keyCount at h ⊢
    rw [he, List.countP_append, List.countP_cons] at h
    rw [hsh, List.countP_append, List.countP_cons]
    have hmm : keyMatch k t' = keyMatch k t := by
      unfold keyMatch
      rw [hkk]
    rw [hmm]
    exact h

/-- Unpacking `keyStatus = COMPLETED`. -/
theorem keyStatus_completed_elim (s : Store) (k : String)
    (hc : keyStatus s k = some TStatus.COMPLETED) :
    ∃ t0, s.txns.find? (keyMatch k) = some t0 ∧
      t0.status = TStatus.COMPLETED ∧ t0 ∈ s.txns ∧
      keyMatch k t0 = true ∧ keyTaken s.txns (some k) = true := by
  unfold keyStatus at hc
  rcases hf : s.txns.find? (keyMatch k) with _ | t0
  · rw [hf] at hc
    simp at hc
  · rw [hf] at hc
    simp at hc
    have ht0k : keyMatch k t0 = true := List.find?_some hf
    have ht0key : t0.idempotencyKey = some k := by simpa [keyMatch] using ht0k
    refine ⟨t0, rfl, hc, List.mem_of_find?_eq_some hf, ht0k, ?_⟩
    simp only [keyTaken, List.any_eq_true, decide_eq_true_eq]
    exact ⟨t0, List.mem_of_find?_eq_some hf, ht0key⟩

/-- Once the key's transaction is COMPLETED it stays COMPLETED: inserts
with that key are refused by the unique index and the charge handlers
only rewrite PENDING documents. -/
theorem applyOp_completed_stable (s : Store) (k : String) (op : AtomicOp)
    (hcount : keyCount s k ≤ 1)
    (hc : keyStatus s k = some TStatus.COMPLETED) :
    keyStatus (applyOp s op) k = some TStatus.COMPLETED := by
  obtain ⟨t0, hf0, ht0s, ht0m, ht0k, hkt⟩ := keyStatus_completed_elim s k hc
  rcases applyOp_txns_shape s op with hsh | ⟨t, hsh, hfree⟩ |
    ⟨t, t', l1, l2, he, hsh, hkk, hpend⟩
  · unfold keyStatus at hc ⊢
    rw [hsh]
    exact hc
  · have hm : keyMatch k t = false := by
      by_cases ht : t.idempotencyKey = some k
      · rw [ht] at hfree
        rw [hfree] at hkt
        simp at hkt
      · simp [keyMatch, ht]
    unfold keyStatus at hc ⊢
    rw [hsh, List.find?_cons, hm]
    exact hc
  · have hm : keyMatch k t = false := by
      by_cases ht : keyMatch k t = true
      · have htm : t ∈ s.txns := by
          rw [he]
          exact List.mem_append.mpr (Or.inr (List.mem_cons_self _ _))
        have heq := countP_le_one_unique s.txns (keyMatch k) hcount t t0
          htm ht0m ht ht0k
        rw [heq, ht0s] at hpend
        exact absurd hpend (by decide)
      · simpa using ht
    have hm' : keyMatch k t' = false := by
      unfold keyMatch at hm ⊢
      rw [hkk]
      exact hm
    unfold keyStatus at hc ⊢
    rw [he] at hc
    rw [hsh, find?_replace_not l1 l2 t t' (keyMatch k) hm hm']
    exact hc

/-- Once the key's transaction is COMPLETED, no commit can produce a
further balance effect for that key. -/
theorem opEffect_zero_of_completed (s : Store) (k : String) (op : AtomicOp)
    (hcount : keyCount s k ≤ 1)
    (hc : keyStatus s k = some TStatus.COMPLETED) :
    opEffect k s op = 0 := by
  obtain ⟨t0, hf0, ht0s, ht0m, ht0k, hkt⟩ := keyStatus_completed_elim s k hc
  cases op with
  | topUpCommit u k' pi a =>
    show effectTopUpCommit k s u k' pi a = 0
    unfold effectTopUpCommit
    by_cases hk : k' = k
    · subst hk
      have hnone : insertTxn s (opTopUpTxn u k' pi a TStatus.COMPLETED)
          = none := by
        unfold insertTxn
        rw [if_pos (show keyTaken s.txns
          (opTopUpTxn u k' pi a TStatus.COMPLETED).idempotencyKey = true from hkt)]
      rw [hnone]
    · rcases hins : insertTxn s (opTopUpTxn u k' pi a TStatus.COMPLETED)
          with _ | s1
      · rfl
      · dsimp only []
        by_cases hmz : (walletIncFirst s1.wallets u a).1 = 0
        · rw [if_pos hmz]
        · rw [if_neg hmz, if_neg hk]
  | debitCommit u k' a =>
    show effectDebitCommit k s u k' a = 0
    unfold effectDebitCommit
    by_cases hmz : (walletCondDebit s.wallets u a).1 = 0
    · rw [if_pos hmz]
    · rw [if_neg hmz]
      by_cases hk : k' = k
      · subst hk
        have hnone : insertTxn
            { s with wallets := (walletCondDebit s.wallets u a).2 }
            (opDebitTxn u k' a (balanceOf s u)) = none := by
          unfold insertTxn
          rw [if_pos (show keyTaken s.txns
            (opDebitTxn u k' a (balanceOf s u)).idempotencyKey = true from hkt)]
        rw [hnone]
      · rcases hins : insertTxn
            { s with wallets := (walletCondDebit s.wallets u a).2 }
            (opDebitTxn u k' a (balanceOf s u)) with _ | s2
        · rfl
        · dsimp only []
          rw [if_neg hk]
  | chargeSucceeded pi a =>
    show effectChargeSucceeded k s pi a = 0
    unfold effectChargeSucceeded
    rcases hf : s.txns.find? (pendPred pi) with _ | t
    · rfl
    · dsimp only []
      by_cases hmz : (walletIncFirst s.wallets t.userId a).1 = 0
      · rw [if_pos hmz]
      · rw [if_neg hmz]
        have hm : ¬t.idempotencyKey = some k := by
          intro ht
          have htm := List.mem_of_find?_eq_some hf
          have htp : t.status = TStatus.PENDING := by
            have := List.find?_some hf
            simp [pendPred] at this
            exact this.2
          have htk : keyMatch k t = true := by simp [keyMatch, ht]
          have heq := countP_le_one_unique s.txns (keyMatch k) hcount t t0
            htm ht0m htk ht0k
          rw [heq, ht0s] at htp
          exact absurd htp (by decide)
        rw [if_neg hm]
  | insertPendingTopUp u k' pi a => rfl
  | insertFailedTopUp u k' a msg => rfl
  | chargeFailed pi msg => rfl
  | createWallet u => rfl

/-- A commit performs at most one balance effect. -/
theorem opEffect_le_one (s : Store) (k : String) (op : AtomicOp) :
    opEffect k s op ≤ 1 := by
  cases op with
  | topUpCommit u k' pi a =>
    show effectTopUpCommit k s u k' pi a ≤ 1
    unfold effectTopUpCommit
    split
    · exact Nat.zero_le _
    · split
      · exact Nat.zero_le _
      · split <;> simp
  | debitCommit u k' a =>
    show effectDebitCommit k s u k' a ≤ 1
    unfold effectDebitCommit
    split
    · exact Nat.zero_le _
    · split
      · exact Nat.zero_le _
      · split <;> simp
  | chargeSucceeded pi a =>
    show effectChargeSucceeded k s pi a ≤ 1
    unfold effectChargeSucceeded
    split
    · exact Nat.zero_le _
    · split
      · exact Nat.zero_le _
      · split <;> simp
  | insertPendingTopUp u k' pi a => exact Nat.zero_le _
  | insertFailedTopUp u k' a msg => exact Nat.zero_le _
  | chargeFailed pi msg => exact Nat.zero_le _
  | createWallet u => exact Nat.zero_le _

/-- A commit that performs a balance effect for key `k` leaves the
key's transaction COMPLETED. -/
theorem opEffect_one_completes (s : Store) (k : String) (op : AtomicOp)
    (hcount : keyCount s k ≤ 1) (he : opEffect k s op = 1) :
    keyStatus (applyOp s op) k = some TStatus.COMPLETED := by
  cases op with
  | topUpCommit u k' pi a =>
    replace he : effectTopUpCommit k s u k' pi a = 1 := he
    unfold effectTopUpCommit at he
    rcases hins : insertTxn s (opTopUpTxn u k' pi a TStatus.COMPLETED)
        with _ | s1
    · rw [hins] at he
      simp at he
    · rw [hins] at he
      dsimp only [] at he
      by_cases hmz : (walletIncFirst s1.wallets u a).1 = 0
      · rw [if_pos hmz] at he
        simp at he
      · rw [if_neg hmz] at he
        by_cases hk : k' = k
        · subst hk
          obtain ⟨hs1, _⟩ := insertTxn_some_elim s _ s1 hins
          unfold keyStatus
          show (((applyTopUpCommit s u k' pi a).txns).find?
            (keyMatch k')).map Txn.status = some TStatus.COMPLETED
          unfold applyTopUpCommit
          rw [hins]
          dsimp only []
          rw [if_neg hmz]
          have hts : ({ s1 with wallets :=
              (walletIncFirst s1.wallets u a).2 } : Store).txns
              = opTopUpTxn u k' pi a TStatus.COMPLETED :: s.txns := by
            rw [hs1]
          rw [hts, List.find?_cons_of_pos _
            (by simp [keyMatch, opTopUpTxn])]
          rfl
        · rw [if_neg hk] at he
          simp at he
  | debitCommit u k' a =>
    replace he : effectDebitCommit k s u k' a = 1 := he
    unfold effectDebitCommit at he
    by_cases hmz : (walletCondDebit s.wallets u a).1 = 0
    · rw [if_pos hmz] at he
      simp at he
    · rw [if_neg hmz] at he
      rcases hins : insertTxn
          { s with wallets := (walletCondDebit s.wallets u a).2 }
          (opDebitTxn u k' a (balanceOf s u)) with _ | s2
      · rw [hins] at he
        simp at he
      · rw [hins] at he
        dsimp only [] at he
        by_cases hk : k' = k
        · subst hk
          obtain ⟨hs2, _⟩ := insertTxn_some_elim _ _ s2 hins
          unfold keyStatus
          show (((applyDebitCommit s u k' a).txns).find?
            (keyMatch k')).map Txn.status = some TStatus.COMPLETED
          unfold applyDebitCommit
          rw [if_neg hmz, hins]
          dsimp only []
          have hts : s2.txns
              = opDebitTxn u k' a (balanceOf s u) :: s.txns := by
            rw [hs2]
          rw [hts, List.find?_cons_of_pos _
            (by simp [keyMatch, opDebitTxn])]
          rfl
        · rw [if_neg hk] at he
          simp at he
  | chargeSucceeded pi a =>
    replace he : effectChargeSucceeded k s pi a = 1 := he
    unfold effectChargeSucceeded at he
    rcases hf : s.txns.find? (pendPred pi) with _ | t
    · rw [hf] at he
      simp at he
    · rw [hf] at he
      dsimp only [] at he
      by_cases hmz : (walletIncFirst s.wallets t.userId a).1 = 0
      · rw [if_pos hmz] at he
        simp at he
      · rw [if_neg hmz] at he
        by_cases hk : t.idempotencyKey = some k
        · obtain ⟨l1, l2, hel, hu, _⟩ := updateFirstPendingPI_flip s.txns pi
            (fun x => { x with status := TStatus.COMPLETED }) t hf
          have htk : keyMatch k t = true := by simp [keyMatch, hk]
          have hl1 : ∀ x ∈ l1, keyMatch k x = false := by
            intro x hx
            by_cases hxk : keyMatch k x = true
            · exfalso
              have hcl : s.txns.countP (keyMatch k)
                  = l1.countP (keyMatch k) + (t :: l2).countP (keyMatch k) := by
                rw [hel, List.countP_append]
              have h1 : 0 < l1.countP (keyMatch k) :=
                List.countP_pos_iff.mpr ⟨x, hx, hxk⟩
              have h2 : 0 < (t :: l2).countP (keyMatch k) := by
                rw [List.countP_cons_of_pos _ _ htk]
                omega
              unfold keyCount at hcount
              omega
            · simpa using hxk
          unfold keyStatus
          show ((handleSuccesfullCharge s ⟨pi, a⟩).txns.find?
            (keyMatch k)).map Txn.status = some TStatus.COMPLETED
          rw [handleSuccesfullCharge_hit s ⟨pi, a⟩ t hf]
          show ((updateFirstPendingPI s.txns pi
            (fun x => { x with status := TStatus.COMPLETED })).2.find?
              (keyMatch k)).map Txn.status = some TStatus.COMPLETED
          rw [hu, find?_append_first l1 l2
            { t with status := TStatus.COMPLETED } (keyMatch k) hl1 htk]
          rfl
        · rw [if_neg hk] at he
          simp at he
  | insertPendingTopUp u k' pi a =>
    replace he : (0 : Nat) = 1 := he
    simp at he
  | insertFailedTopUp u k' a msg =>
    replace he : (0 : Nat) = 1 := he
    simp at he
  | chargeFailed pi msg =>
    replace he : (0 : Nat) = 1 := he
    simp at he
  | createWallet u =>
    replace he : (0 : Nat) = 1 := he
    simp at he

/-- The unique-index invariant along a whole schedule. -/
theorem applyOps_keyCount_le (s : Store) (k : String) (ops : List AtomicOp)
    (h : keyCount s k ≤ 1) : keyCount (applyOps s ops) k ≤ 1 := by
  induction ops generalizing s with
  | nil => exact h
  | cons op rest ih => exact ih (applyOp s op) (applyOp_keyCount_le s k op h)

/-- COMPLETED is absorbing along a whole schedule. -/
theorem applyOps_completed_stable (s : Store) (k : String)
    (ops : List AtomicOp) (hcount : keyCount s k ≤ 1)
    (hc : keyStatus s k = some TStatus.COMPLETED) :
    keyStatus (applyOps s ops) k = some TStatus.COMPLETED := by
  induction ops generalizing s with
  | nil => exact hc
  | cons op rest ih =>
    exact ih (applyOp s op) (applyOp_keyCount_le s k op hcount)
      (applyOp_completed_stable s k op hcount hc)

/-- At most one balance effect per key along any schedule; none at all
once the key's transaction is COMPLETED. -/
theorem effectsFor_le (s : Store) (k : String) (ops : List AtomicOp)
    (hcount : keyCount s k ≤ 1) :
    effectsFor k s ops ≤
      (if keyStatus s k = some TStatus.COMPLETED then 0 else 1) := by
  induction ops generalizing s with
  | nil =>
    show (0 : Nat) ≤ _
    split <;> omega
  | cons op rest ih =>
    show opEffect k s op + effectsFor k (applyOp s op) rest ≤ _
    have hcount' := applyOp_keyCount_le s k op hcount
    by_cases hc : keyStatus s k = some TStatus.COMPLETED
    · rw [if_pos hc]
      have h0 := opEffect_zero_of_completed s k op hcount hc
      have hstable := applyOp_completed_stable s k op hcount hc
      have hrest := ih (applyOp s op) hcount'
      rw [if_pos hstable] at hrest
      omega
    · rw [if_neg hc]
      have hle := opEffect_le_one s k op
      have hrest := ih (applyOp s op) hcount'
      rcases Nat.lt_or_ge (opEffect k s op) 1 with h0 | h1
      · have : opEffect k s op = 0 := by omega
        split at hrest <;> omega
      · have he1 : opEffect k s op = 1 := by omega
        have hpost := opEffect_one_completes s k op hcount he1
        rw [if_pos hpost] at hrest
        omega

/-- A schedule that performed a balance effect for the key ends with the
key's transaction COMPLETED. -/
theorem effectsFor_pos_completed (s : Store) (k : String)
    (ops : List AtomicOp) (hcount : keyCount s k ≤ 1)
    (hp : 1 ≤ effectsFor k s ops) :
    keyStatus (applyOps s ops) k = some TStatus.COMPLETED := by
  induction ops generalizing s with
  | nil => simp [effectsFor] at hp
  | cons op rest ih =>
    have hcount' := applyOp_keyCount_le s k op hcount
    rcases Nat.lt_or_ge (opEffect k s op) 1 with h0 | h1
    · have hz : opEffect k s op = 0 := by omega
      have hp' : 1 ≤ effectsFor k (applyOp s op) rest := by
        have : effectsFor k s (op :: rest)
            = opEffect k s op + effectsFor k (applyOp s op) rest := rfl
        omega
      exact ih (applyOp s op) hcount' hp'
    · have hle := opEffect_le_one s k op
      have he1 : opEffect k s op = 1 := by omega
      exact applyOps_completed_stable (applyOp s op) k rest hcount'
        (opEffect_one_completes s k op hcount he1)

/-- If the first key-`k` transaction is COMPLETED, the replay lookup of
`topUpWallet` (key ∧ COMPLETED) finds it. -/
theorem find_completed_of_first (l : List Txn) (k : String)
    (hc : (l.find? (keyMatch k)).map Txn.status = some TStatus.COMPLETED) :
    ∃ t, l.find? (fun t =>
        decide (t.idempotencyKey = some k ∧ t.status = TStatus.COMPLETED))
          = some t ∧
      t.idempotencyKey = some k ∧ t.status = TStatus.COMPLETED := by
  induction l with
  | nil => simp at hc
  | cons x xs ih =>
    by_cases hx : keyMatch k x = true
    · rw [List.find?_cons_of_pos _ hx] at hc
      simp at hc
      have hxk : x.idempotencyKey = some k := by simpa [keyMatch] using hx
      refine ⟨x, ?_, hxk, hc⟩
      exact List.find?_cons_of_pos _ (by simp [hxk, hc])
    · rw [Bool.not_eq_true] at hx
      rw [List.find?_cons_of_neg _ (by simp [hx])] at hc
      obtain ⟨t, hfind, hk, hs⟩ := ih hc
      refine ⟨t, ?_, hk, hs⟩
      have hxk : ¬x.idempotencyKey = some k := by
        intro hcon
        simp [keyMatch, hcon] at hx
      rw [List.find?_cons_of_neg _ (by simp [hxk]), hfind]

/-- COMPLETED-per-key count is bounded by the per-key count. -/
theorem completedKeyCount_le (s : Store) (k : String) :
    completedKeyCount s k ≤ keyCount s k := by
  unfold completedKeyCount keyCount
  apply List.countP_mono_left
  intro t _ h
  exact (Bool.and_eq_true .. ▸ h).1

/-- A COMPLETED key status exhibits a COMPLETED transaction. -/
theorem completedKeyCount_pos (s : Store) (k : String)
    (hc : keyStatus s k = some TStatus.COMPLETED) :
    1 ≤ completedKeyCount s k := by
  obtain ⟨t0, _, hs0, hm0, hk0, _⟩ := keyStatus_completed_elim s k hc
  exact List.countP_pos_iff.mpr ⟨t0, hm0, by simp [hk0, hs0]⟩

/-- C2: replaying `topUp` or `debitForCampaign` with one idempotency
key, under any interleaving of the services' atomic commits (the store
serializes them, which is how the code supports concurrent callers),
yields at most one transaction holding the key (hence never both a
COMPLETED and a FAILED one), at most one COMPLETED transaction, and at
most one balance effect for the key; once an effect happened there is
exactly one COMPLETED transaction, absorbing thereafter; and a replayed
`topUpWallet` against a COMPLETED key returns the recorded transaction
unchanged with no new effect — the stable result. -/
theorem idempotency_per_key (s : Store) (k : String) (ops : List AtomicOp)
    (hkeys : keyCount s k ≤ 1) :
    effectsFor k s ops ≤ 1 ∧
    keyCount (applyOps s ops) k ≤ 1 ∧
    completedKeyCount (applyOps s ops) k ≤ 1 ∧
    (1 ≤ effectsFor k s ops →
      keyStatus (applyOps s ops) k = some TStatus.COMPLETED ∧
      completedKeyCount (applyOps s ops) k = 1) ∧
    (∀ userId amt outcome, ¬k = "" →
      keyStatus s k = some TStatus.COMPLETED →
      ∃ t, topUpWallet s userId k amt outcome = (.existing t, s) ∧
        t.idempotencyKey = some k ∧ t.status = TStatus.COMPLETED) := by
  have hkc := applyOps_keyCount_le s k ops hkeys
  refine ⟨?_, hkc, ?_, ?_, ?_⟩
  · have h := effectsFor_le s k ops hkeys
    split at h <;> omega
  · exact le_trans (completedKeyCount_le _ _) hkc
  · intro hp
    have hcs := effectsFor_pos_completed s k ops hkeys hp
    refine ⟨hcs, ?_⟩
    have h1 := completedKeyCount_pos _ _ hcs
    have h2 := le_trans (completedKeyCount_le _ _) hkc
    omega
  · intro userId amt outcome hk hc
    obtain ⟨t, hfind, htk, hts⟩ := find_completed_of_first s.txns k hc
    refine ⟨t, ?_, htk, hts⟩
    unfold topUpWallet
    rw [if_neg hk, hfind]

/-- A schedule replaying one top-up: provisioning, the commit, a
duplicate commit, and a duplicate charge event. -/
def idemOps : List AtomicOp :=
  [.createWallet uidA, .topUpCommit uidA "k2" "pi_2" 500,
   .topUpCommit uidA "k2" "pi_2" 500, .chargeSucceeded "pi_2" 500]

/-- Witness for C2 on a concrete replayed schedule. -/
theorem idempotency_per_key_witness :
    keyCount Store.empty "k2" ≤ 1 ∧
    effectsFor "k2" Store.empty idemOps ≤ 1 ∧
    completedKeyCount (applyOps Store.empty idemOps) "k2" ≤ 1 := by
  have h := idempotency_per_key Store.empty "k2" idemOps (by decide)
  exact ⟨by decide, h.1, h.2.2.1⟩

end AmplifyWallet
